import Mathlib

/-!
Shallow embedding of the COTSense client logic
(`client/src/pages/search-results.tsx`, `client/src/components/component-table.tsx`,
the CSV export button component, and `client/src/lib/api.ts`), together with
theorems checking the natural-language specification against that code.

JavaScript numbers appearing in the client (scores, prices) are modelled as
rationals (`ℚ`): every number entering this logic arrives as a decimal literal
in a JSON payload, which denotes a rational with denominator a power of ten.
-/

namespace COTSense

/-! ## JavaScript primitives used by the client code -/

/-- Models the JavaScript expression `a || b` on two optional strings:
`a || b` yields `b` when `a` is `undefined`/`null` or the empty string
(both falsy), and `a` otherwise. -/
def jsOrStr (a b : Option String) : Option String :=
  match a with
  | none => b
  | some s => if s = "" then b else some s

/-- Models the JavaScript expression `a || b` on two optional numbers:
`a || b` yields `b` when `a` is `undefined`/`null` or `0` (falsy), and `a`
otherwise. -/
def jsOrNum (a b : Option ℚ) : Option ℚ :=
  match a with
  | none => b
  | some q => if q = 0 then b else some q

/-- Models interpolating a possibly-`undefined` string into a JavaScript
template literal: `undefined` renders as the text `undefined`. -/
def jsInterp (a : Option String) : String :=
  a.getD "undefined"

/-- Models a JavaScript `Record<string, string>` as an association list
(first binding for a key wins on lookup). -/
abbrev JsRecord := List (String × String)

/-- Lookup in a `Record<string, string>`. -/
def recordGet (m : JsRecord) (k : String) : Option String :=
  (m.find? (fun p => p.1 = k)).map (·.2)

/-- Models the truthiness test `record[k]` used as a condition: it holds
exactly when the key is present with a non-empty value. -/
def recordTruthy (m : JsRecord) (k : String) : Bool :=
  match recordGet m k with
  | none => false
  | some v => v ≠ ""

/-- Models the spread update `{...prev, [k]: v}`: replaces the binding of `k`
if present, otherwise appends it. -/
def recordSet (m : JsRecord) (k v : String) : JsRecord :=
  match m with
  | [] => [(k, v)]
  | (k₀, v₀) :: rest =>
    if k₀ = k then (k, v) :: rest else (k₀, v₀) :: recordSet rest k v

/-! ## Decimal digit strings

Executable digit printing and parsing used to model JavaScript's
`Number.prototype.toFixed` and number-to-string conversion. Fuel-based
recursion keeps every definition kernel-reducible. -/

/-- The decimal digit character for `n < 10`. -/
def digitChar (n : Nat) : Char := Char.ofNat (48 + n)

/-- Decimal digits of `n`, most significant first; `fuel` must exceed `n`. -/
def natDigitsAux : Nat → Nat → List Char
  | 0, _ => []
  | fuel + 1, n =>
    if n < 10 then [digitChar n]
    else natDigitsAux fuel (n / 10) ++ [digitChar (n % 10)]

/-- Decimal representation of a natural number. -/
def natToString (n : Nat) : String := ⟨natDigitsAux (n + 1) n⟩

/-- Numeric value of a decimal digit character. -/
def digitVal (c : Char) : Nat := c.toNat - 48

/-- Whether `c` is a decimal digit character. -/
def isDigitChar (c : Char) : Bool := 48 ≤ c.toNat && c.toNat ≤ 57

/-- Value of a most-significant-first digit string. -/
def digitsToNat (cs : List Char) : Nat :=
  cs.foldl (fun acc c => acc * 10 + digitVal c) 0

/-- Left-pads a digit string with zero characters to width `d`. -/
def padZeros (d : Nat) (cs : List Char) : List Char :=
  List.replicate (d - cs.length) (digitChar 0) ++ cs

/-! ## JavaScript number formatting -/

/-- Removes all factors `p` from `n`: returns `(k, m)` with `n = p ^ k * m`.
Fuel-based so that it reduces in the kernel. -/
def stripFactorAux (p : Nat) : Nat → Nat → Nat × Nat
  | 0, n => (0, n)
  | fuel + 1, n =>
    if 2 ≤ p && n % p == 0 && 0 < n then
      ((stripFactorAux p fuel (n / p)).1 + 1, (stripFactorAux p fuel (n / p)).2)
    else (0, n)

/-- Models JavaScript `String(n)` on the client's numbers. Every number
reaching this code is a decimal literal from a JSON payload, i.e. a rational
whose reduced denominator is `2 ^ a * 5 ^ b`; for those this prints the exact
shortest decimal expansion, matching `String(n)`. (Other rationals, which
cannot arise from JSON, fall into the same fixed-point printer with a
truncated mantissa.) -/
def jsNumToString (q : ℚ) : String :=
  let sgn : String := if q < 0 then "-" else ""
  let num := q.num.natAbs
  let den := q.den
  let a := (stripFactorAux 2 den den).1
  let r2 := (stripFactorAux 2 den den).2
  let b := (stripFactorAux 5 r2 r2).1
  let k := max a b
  let m := num * 10 ^ k / den
  if k = 0 then sgn ++ natToString m
  else
    sgn ++ natToString (m / 10 ^ k) ++ "." ++
      ⟨padZeros k (natDigitsAux (m % 10 ^ k + 1) (m % 10 ^ k))⟩

/-- The mantissa chosen by `Number.prototype.toFixed(d)`: per the ECMAScript
algorithm, the integer `n` minimising the distance of `n / 10 ^ d` to the
absolute value of the number, ties going to the larger `n`. -/
def toFixedMantissa (d : Nat) (q : ℚ) : Nat :=
  (⌊|q| * 10 ^ d + 1 / 2⌋).toNat

/-- Models `Number.prototype.toFixed(d)`: the sign, then the mantissa split
into integer part and a `d`-digit zero-padded fractional part. -/
def toFixed (d : Nat) (q : ℚ) : String :=
  (if q < 0 then "-" else "") ++ natToString (toFixedMantissa d q / 10 ^ d) ++
    (if d = 0 then "" else
      "." ++ ⟨padZeros d (natDigitsAux (toFixedMantissa d q % 10 ^ d + 1)
        (toFixedMantissa d q % 10 ^ d))⟩)

/-- The rational value denoted by the string `toFixed d q`. -/
def roundToFixed (d : Nat) (q : ℚ) : ℚ :=
  (if q < 0 then -1 else 1) * (toFixedMantissa d q : ℚ) / 10 ^ d

/-- Parses a nonempty all-digit character list. -/
def parseDigits (cs : List Char) : Option Nat :=
  if cs ≠ [] ∧ cs.all isDigitChar then some (digitsToNat cs) else none

/-- Parses an unsigned decimal numeral, optionally with a fractional part. -/
def parseUnsignedDecimal (cs : List Char) : Option ℚ :=
  let intPart := cs.takeWhile (fun c => c ≠ '.')
  match cs.dropWhile (fun c => c ≠ '.') with
  | [] => (parseDigits intPart).map (fun n => (n : ℚ))
  | _ :: frac =>
    match parseDigits intPart, parseDigits frac with
    | some a, some b => some ((a : ℚ) + (b : ℚ) / 10 ^ frac.length)
    | _, _ => none

/-- Parses a decimal numeral with an optional leading minus sign. -/
def parseDecimal (s : String) : Option ℚ :=
  if s.data.head? = some '-' then
    (parseUnsignedDecimal s.data.tail).map (fun q => -q)
  else parseUnsignedDecimal s.data

/-! ## String comparison -/

/-- Code-unit comparison of two character lists: `-1`, `0` or `1`. -/
def lexCompareChars : List Char → List Char → Int
  | [], [] => 0
  | [], _ :: _ => -1
  | _ :: _, [] => 1
  | a :: as, b :: bs =>
    if a.toNat < b.toNat then -1
    else if b.toNat < a.toNat then 1
    else lexCompareChars as bs

/-- Models `String.prototype.localeCompare` as used by the table sort. The
strings the table compares are part numbers, manufacturer names, stringified
numbers and the empty string; this model uses code-unit order, which the
browser's default-locale collation refines only on case-mixed letter pairs. -/
def localeCompare (a b : String) : Int := lexCompareChars a.data b.data

/-! ## The component data model -/

/-- A catalog component as the client sees it at runtime: the camelCase
fields of the shared schema type (`shared/schema.ts`) plus the snake_case
fields that arrive in the FastAPI JSON payloads; the client code probes both
spellings (`(c as any).part_number || c.partNumber`, …). Fields absent at
runtime are `none`. -/
structure Component where
  id : String
  partNumber : Option String := none
  part_number : Option String := none
  manufacturer : Option String := none
  category : Option String := none
  description : Option String := none
  specMatch : Option ℚ := none
  spec_match : Option ℚ := none
  totalScore : Option ℚ := none
  total_score : Option ℚ := none
  price : Option ℚ := none
  stock : Option String := none
  specifications : Option String := none
deriving DecidableEq

/-! ## Result sorting (`component-table.tsx`) -/

/-- The sortable columns of the result table. -/
inductive SortField
  | partNumber
  | manufacturer
  | specMatch
  | totalScore
  | price
deriving DecidableEq

inductive SortDirection
  | asc
  | desc
deriving DecidableEq

/-- Whether the column reads a numeric component property. -/
def SortField.isNumericField : SortField → Bool
  | .specMatch | .totalScore | .price => true
  | _ => false

/-- A JavaScript value read off a component property by the sort: a string
or a number (after `?? ""`, a missing property has become `""`). -/
inductive JsSortVal
  | str (s : String)
  | num (q : ℚ)
deriving DecidableEq

/-- Models `a[sortField] ?? ""`: reads the camelCase property named by the
sort field and replaces `undefined`/`null` by `""`. -/
def getSortVal (c : Component) : SortField → JsSortVal
  | .partNumber => match c.partNumber with | some s => .str s | none => .str ""
  | .manufacturer => match c.manufacturer with | some s => .str s | none => .str ""
  | .specMatch => match c.specMatch with | some q => .num q | none => .str ""
  | .totalScore => match c.totalScore with | some q => .num q | none => .str ""
  | .price => match c.price with | some q => .num q | none => .str ""

/-- Models JavaScript `String(v)` on a sort value. -/
def jsSortValToString : JsSortVal → String
  | .str s => s
  | .num q => jsNumToString q

/-- Models `sortDirection === "asc" ? 1 : -1`. -/
def dirMultiplier : SortDirection → ℚ
  | .asc => 1
  | .desc => -1

/-- The undirected part of the table comparator: `aVal - bVal` when both
values are numbers, `String(aVal).localeCompare(String(bVal))` otherwise. -/
def jsValCmp (av bv : JsSortVal) : ℚ :=
  match av, bv with
  | .num x, .num y => x - y
  | av, bv => (localeCompare (jsSortValToString av) (jsSortValToString bv) : ℚ)

/-- The comparator `sortedComponents` passes to `Array.prototype.sort`. -/
def componentCmp (f : SortField) (dir : SortDirection) (a b : Component) : ℚ :=
  jsValCmp (getSortVal a f) (getSortVal b f) * dirMultiplier dir

/-- Models `Array.prototype.sort(cmp)` for a consistent comparator:
JavaScript sorting is stable, so this is stable insertion sort, placing each
element before the first retained element it does not compare after. -/
def jsSortBy (cmp : Component → Component → ℚ) (l : List Component) : List Component :=
  List.insertionSort (fun a b => cmp a b ≤ 0) l

/-- The `sortedComponents` expression of `component-table.tsx`: a sorted copy
`[...components].sort(comparator)` of the result list. -/
def sortedComponents (components : List Component) (f : SortField)
    (dir : SortDirection) : List Component :=
  jsSortBy (componentCmp f dir) components

/-- The `ComponentTable` local state: sort column, sort direction, and the
set of expanded row identifiers. -/
structure TableState where
  sortField : SortField := .totalScore
  sortDirection : SortDirection := .desc
  expandedRows : List String := []
deriving DecidableEq

/-- The `handleSort` handler of `component-table.tsx`: clicking the current sort
column toggles the direction, clicking a new column selects it descending. -/
def handleSort (s : TableState) (f : SortField) : TableState :=
  if s.sortField = f then
    { s with sortDirection := if s.sortDirection = .asc then .desc else .asc }
  else
    { s with sortField := f, sortDirection := .desc }

/-- The list the table renders for a result list and a table state. -/
def displayedList (components : List Component) (s : TableState) : List Component :=
  sortedComponents components s.sortField s.sortDirection

/-- The value shapes the sort can actually encounter on a column: numeric
columns yield numbers or (for a missing property) the empty string; the
other columns always yield strings. -/
def valOkFor (f : SortField) : JsSortVal → Prop
  | .str s => f.isNumericField = true → s = ""
  | .num _ => f.isNumericField = true

/-- The numeric component property a numeric sort column reads. -/
def numericVal (c : Component) : SortField → Option ℚ
  | .specMatch => c.specMatch
  | .totalScore => c.totalScore
  | .price => c.price
  | _ => none

/-- Ordering with a missing value sorting before every present value. -/
def missingFirstLE (x y : Option ℚ) : Prop :=
  match x, y with
  | none, _ => True
  | some _, none => False
  | some a, some b => a ≤ b

/-- Modelled from the specification's sorting contract, for comparison with
the source comparator: numeric fields compare numerically with a missing
value as zero; all other fields compare lexically with a missing value as
the empty string. -/
def specSortValOfClaim (c : Component) : SortField → JsSortVal
  | .partNumber => .str (c.partNumber.getD "")
  | .manufacturer => .str (c.manufacturer.getD "")
  | .specMatch => .num (c.specMatch.getD 0)
  | .totalScore => .num (c.totalScore.getD 0)
  | .price => .num (c.price.getD 0)

/-- The comparator induced by the specification's words. -/
def specCmpOfClaim (f : SortField) (dir : SortDirection) (a b : Component) : ℚ :=
  jsValCmp (specSortValOfClaim a f) (specSortValOfClaim b f) * dirMultiplier dir

/-- The (stable) sort described by the specification's words. -/
def sortedComponentsSpec (comps : List Component) (f : SortField)
    (dir : SortDirection) : List Component :=
  List.insertionSort (fun a b => specCmpOfClaim f dir a b ≤ 0) comps

/-! ## The search page (`search-results.tsx`) -/

/-- The body of an `/api/explain` response (`shared/schema.ts`). -/
structure ExplainResponse where
  explanation : String
  component_id : String
deriving DecidableEq

/-- An in-flight explanation request together with the values the
`handleExplain` closure captured at issuance: the requested identifier, the
component found for it in the result list, and the page's query. -/
structure ExplainRequest where
  id : String
  component : Component
  query : String
deriving DecidableEq

/-- The page and table state of `SearchResults`, extended with the
observation logs the theorems read: issued `/api/explain` and
`/api/recommend` requests and the still-unresolved explanation requests. -/
structure AppState where
  query : String := ""
  components : List Component := []
  explanations : JsRecord := []
  error : Option String := none
  isLoading : Bool := false
  table : TableState := {}
  pendingExplains : List ExplainRequest := []
  explainLog : List String := []
  recommendLog : List String := []
deriving DecidableEq

/-- The hardcoded blocklist `obviouslyBadTerms` of `isValidElectronicsQuery`. -/
def obviouslyBadTerms : List String :=
  ["react", "javascript", "html", "css", "python", "java", "php", "node",
   "website", "frontend", "backend", "database", "server", "api",
   "facebook", "instagram", "twitter", "youtube", "google", "amazon"]

/-- Models `String.prototype.trim`: strips leading and trailing whitespace. -/
def jsTrim (s : String) : String :=
  ⟨((s.data.dropWhile Char.isWhitespace).reverse.dropWhile
      Char.isWhitespace).reverse⟩

/-- Models `String.prototype.toLowerCase` on the ASCII text this client
handles. -/
def jsToLower (s : String) : String := ⟨s.data.map Char.toLower⟩

/-- Splits a character list at every character satisfying `p`; `acc` holds
the reversed current segment. -/
def splitOnPredAux (p : Char → Bool) : List Char → List Char → List String
  | [], acc => [⟨acc.reverse⟩]
  | c :: rest, acc =>
    if p c then (⟨acc.reverse⟩ : String) :: splitOnPredAux p rest []
    else splitOnPredAux p rest (c :: acc)

/-- Models `s.split(/\s+/)` on an already-trimmed string: maximal
whitespace runs separate the words. -/
def splitWhitespace (s : String) : List String :=
  (splitOnPredAux Char.isWhitespace s.data []).filter (fun w => w ≠ "")

/-- The `isValidElectronicsQuery` predicate of `search-results.tsx`. -/
def isValidElectronicsQuery (query : String) : Bool :=
  let trimmedQuery := jsToLower (jsTrim query)
  if trimmedQuery.length < 1 || trimmedQuery = "." || trimmedQuery = ".."
      || trimmedQuery = "..." then
    false
  else
    let words := splitWhitespace trimmedQuery
    let allWordsAreBad :=
      !words.isEmpty && words.all (fun w => obviouslyBadTerms.contains w)
    !allWordsAreBad

/-- The error message set for a blocked query. -/
def badQueryMessage (query : String) : String :=
  "\"" ++ query ++ "\" appears to be a software/web development term. This is an electronic components search engine. Try searching for electronic parts, components, or hardware."

/-- The error message set for low-relevance results. -/
def lowRelevanceMessage (query : String) : String :=
  "No relevant electronic components found for \"" ++ query ++ "\". The search results have very low relevance scores. Try searching for more specific electronic components or part numbers."

/-- Models `Math.max(...components.map(c => (c as any).spec_match || 0))` for a
nonempty list (the code only reads it under a `components.length > 0`
guard; on `[]` JavaScript would give `-Infinity`, which this model does not
represent). -/
def maxSpecMatch : List Component → ℚ
  | [] => 0
  | c :: rest =>
    rest.foldl (fun m x => max m (x.spec_match.getD 0)) (c.spec_match.getD 0)

/-- The outcome of the awaited `api.recommend` network call: a parsed
response body, or a rejection whose derived user-facing message is
`err.message` for an `Error` and a fixed fallback otherwise. -/
inductive SearchOutcome
  | success (components : List Component)
  | failure (message : String)
deriving DecidableEq

/-- The `searchComponents` action of `search-results.tsx`, run to completion against
one outcome of the network call: loading and error state are reset first;
an invalid query sets the block message and returns before any request is
issued; otherwise the request is logged and the outcome handled as in the
source, including the `maxScore < 50` rejection of a successful response. -/
def searchComponents (s : AppState) (searchQuery : String)
    (outcome : SearchOutcome) : AppState :=
  let s1 := { s with isLoading := true, error := none }
  if ¬ isValidElectronicsQuery searchQuery then
    { s1 with
      error := some (badQueryMessage searchQuery),
      components := [],
      isLoading := false }
  else
    let s2 := { s1 with recommendLog := searchQuery :: s1.recommendLog }
    match outcome with
    | .failure msg =>
      { s2 with error := some msg, components := [], isLoading := false }
    | .success comps =>
      if comps.length > 0 ∧ maxSpecMatch comps < 50 then
        { s2 with
          error := some (lowRelevanceMessage searchQuery),
          components := [],
          isLoading := false }
      else
        { s2 with components := comps, isLoading := false }

/-- The category text both explanation builders use:
`component.category?.toLowerCase() || 'component'`. -/
def categoryText (component : Component) : String :=
  match component.category with
  | some cat => if jsToLower cat = "" then "component" else jsToLower cat
  | none => "component"

/-- The corrected explanation `handleExplain` stores on a successful
response (the source's "DEPLOYMENT FIX": the response text is discarded and
the sentence is rebuilt from the requested component's own fields and the
captured query). -/
def correctedExplanation (component : Component) (query : String) : String :=
  "The " ++ jsInterp (jsOrStr component.part_number component.partNumber) ++
    " from " ++ jsInterp component.manufacturer ++ " is recommended as a " ++
    categoryText component ++ " component that matches your query '" ++
    query ++ "'."

/-- The fallback explanation `handleExplain` stores when the request fails
and the captured component exists. -/
def fallbackExplanation (component : Component) (query : String) : String :=
  "The " ++ jsInterp (jsOrStr component.part_number component.partNumber) ++
    " from " ++ jsInterp component.manufacturer ++ " is recommended as a " ++
    categoryText component ++ " component that matches your query '" ++
    query ++
    "'. This component has a high compatibility score based on your search criteria."

/-- The `toggleRow` handler of `component-table.tsx` wired to the page's
`handleExplain` (the `onExplain` prop): collapsing removes the row id;
expanding adds it and, unless a truthy cached explanation exists, runs
`handleExplain`, which synchronously caches a "not available" text when the
identifier is not in the result list and otherwise issues an `/api/explain`
request, capturing the found component and the current query. -/
def toggleRow (s : AppState) (id : String) : AppState :=
  if id ∈ s.table.expandedRows then
    { s with table :=
        { s.table with expandedRows := s.table.expandedRows.erase id } }
  else
    let s1 := { s with table :=
        { s.table with expandedRows := id :: s.table.expandedRows } }
    if recordTruthy s1.explanations id then s1
    else
      match s1.components.find? (fun c => c.id = id) with
      | none =>
        { s1 with explanations :=
            recordSet s1.explanations id "Component information not available." }
      | some component =>
        { s1 with
          pendingExplains := ⟨id, component, s1.query⟩ :: s1.pendingExplains,
          explainLog := id :: s1.explainLog }

/-- Resolution of an in-flight explanation request: the fulfilled branch of
`handleExplain`. The response body is only logged; the cached text is the
corrected explanation rebuilt from the captured component, stored under the
captured identifier. -/
def applyExplainSuccess (s : AppState) (req : ExplainRequest)
    (_resp : ExplainResponse) : AppState :=
  { s with
    explanations := recordSet s.explanations req.id
      (correctedExplanation req.component req.query),
    pendingExplains := s.pendingExplains.erase req }

/-- Rejection of an in-flight explanation request: the `catch` branch of
`handleExplain`. A request is only issued after the component lookup
succeeded, so the captured component exists and the fallback sentence is
cached under the captured identifier. -/
def applyExplainFailure (s : AppState) (req : ExplainRequest) : AppState :=
  { s with
    explanations := recordSet s.explanations req.id
      (fallbackExplanation req.component req.query),
    pendingExplains := s.pendingExplains.erase req }

/-- An event of the page's single-threaded event loop. -/
inductive AppEvent
  | toggleRow (id : String)
  | explainSuccess (req : ExplainRequest) (resp : ExplainResponse)
  | explainFailure (req : ExplainRequest)
  | newSearch (q : String) (outcome : SearchOutcome)
deriving DecidableEq

/-- One step of the page. `newSearch` models `handleSearch` (or the URL
effect) setting the query state and the triggered `searchComponents` run;
the other events are row clicks and explanation promise settlements. -/
def stepApp (s : AppState) : AppEvent → AppState
  | .toggleRow id => toggleRow s id
  | .explainSuccess req resp => applyExplainSuccess s req resp
  | .explainFailure req => applyExplainFailure s req
  | .newSearch q outcome => searchComponents { s with query := q } q outcome

/-- Runs a sequence of events. -/
def runApp (s : AppState) (events : List AppEvent) : AppState :=
  events.foldl stepApp s

/-- The error panel's Try Again button: `onClick` runs
`searchComponents(query)` with the page's current query state. -/
def retrySearch (s : AppState) (outcome : SearchOutcome) : AppState :=
  searchComponents s s.query outcome

/-- How many `/api/explain` requests have been issued for `id`. -/
def explainCount (s : AppState) (id : String) : Nat :=
  (s.explainLog.filter (fun x => x = id)).length

/-! ## CSV export (the export button component) -/

/-- Models `Array.prototype.join(sep)`. -/
def jsJoin (sep : String) : List String → String
  | [] => ""
  | [x] => x
  | x :: rest => x ++ sep ++ jsJoin sep rest

/-- The header cells of `exportToCSV`. -/
def csvHeaders : List String :=
  ["Part Number", "Manufacturer", "Category", "Spec Match", "Total Score",
   "Price", "Stock"]

/-- The row cells `exportToCSV` builds for one component. -/
def csvRowCells (c : Component) : List String :=
  [(jsOrStr c.part_number c.partNumber).getD "",
   c.manufacturer.getD "",
   c.category.getD "",
   (match jsOrNum c.spec_match c.specMatch with
    | some q => toFixed 1 q
    | none => ""),
   (match jsOrNum c.total_score c.totalScore with
    | some q => toFixed 1 q
    | none => ""),
   (match c.price with
    | some q => toFixed 2 q
    | none => ""),
   c.stock.getD ""]

/-- The `exportToCSV` function of the export button component: the unquoted joined
header line, then one line per component of double-quoted joined cells,
joined with newlines. -/
def exportToCSV (components : List Component) : String :=
  jsJoin "\n" (jsJoin "," csvHeaders ::
    components.map (fun c =>
      jsJoin "," ((csvRowCells c).map (fun cell => "\"" ++ cell ++ "\""))))

/-- Modelled from the specification's CSV contract, for comparison with the
source cells: every cell present, scores printed with one decimal from the
component's score (payload value first, then the schema field), price with
two decimals, missing values empty. -/
def csvRowCellsSpec (c : Component) : List String :=
  [((c.part_number).orElse (fun _ => c.partNumber)).getD "",
   c.manufacturer.getD "",
   c.category.getD "",
   (((c.spec_match).orElse (fun _ => c.specMatch)).map (toFixed 1)).getD "",
   (((c.total_score).orElse (fun _ => c.totalScore)).map (toFixed 1)).getD "",
   ((c.price).map (toFixed 2)).getD "",
   c.stock.getD ""]

/-- The CSV text the specification describes. -/
def csvExportSpec (components : List Component) : String :=
  jsJoin "\n"
    ("Part Number,Manufacturer,Category,Spec Match,Total Score,Price,Stock" ::
      components.map (fun c =>
        jsJoin "," ((csvRowCellsSpec c).map (fun cell => "\"" ++ cell ++ "\""))))

/-! ## CSV parsing (for the roundtrip property) -/

/-- Splits a character list at every occurrence of `sep`; `acc` holds the
reversed current segment. -/
def splitOnCharAux (sep : Char) : List Char → List Char → List (List Char)
  | [], acc => [acc.reverse]
  | c :: rest, acc =>
    if c = sep then acc.reverse :: splitOnCharAux sep rest []
    else splitOnCharAux sep rest (c :: acc)

/-- The lines of a string, split at every newline. -/
def splitLines (s : String) : List (List Char) := splitOnCharAux '\n' s.data []

/-- Splits a quoted cell body: the content up to the first `"` and the
remainder after it; fails on an unterminated quote. -/
def scanQuoted : List Char → Option (List Char × List Char)
  | [] => none
  | c :: rest =>
    if c = '"' then some ([], rest)
    else (scanQuoted rest).map (fun p => (c :: p.1, p.2))

/-- Parses the cells of one CSV record: a cell is either `"`-delimited
(without escapes — the export writes none) or a bare cell running to the
next comma; a stray quote makes the record malformed. -/
def parseCells : Nat → List Char → Option (List String)
  | 0, _ => none
  | fuel + 1, cs =>
    if cs.head? = some '"' then
      match scanQuoted cs.tail with
      | none => none
      | some (content, r) =>
        match r with
        | [] => some [⟨content⟩]
        | c :: r2 =>
          if c = ',' then
            (parseCells fuel r2).map (fun cells => (⟨content⟩ : String) :: cells)
          else none
    else
      let content := cs.takeWhile (fun c => c ≠ ',')
      if content.all (fun c => c ≠ '"') then
        match cs.dropWhile (fun c => c ≠ ',') with
        | [] => some [⟨content⟩]
        | _ :: r2 =>
          (parseCells fuel r2).map (fun cells => (⟨content⟩ : String) :: cells)
      else none

/-- Parses CSV text: newline-separated records of comma-separated,
optionally quoted cells. (Line-based: a quoted newline is not supported,
matching the roundtrip property's premise that no cell contains one.) -/
def parseCSV (s : String) : Option (List (List String)) :=
  (splitLines s).mapM (fun line => parseCells (line.length + 1) line)

/-- The character stream of one double-quoted CSV row (proof helper relating
the export string to the parser). -/
def quotedRowChars : List String → List Char
  | [] => []
  | [cell] => '"' :: (cell.data ++ ['"'])
  | cell :: rest => '"' :: (cell.data ++ '"' :: ',' :: quotedRowChars rest)

/-! ## Theorems -/

theorem recordGet_recordSet_self (m : JsRecord) (k v : String) :
    recordGet (recordSet m k v) k = some v := by
  induction m with
  | nil => simp [recordSet, recordGet]
  | cons p rest ih =>
    obtain ⟨k₀, v₀⟩ := p
    by_cases h : k₀ = k
    · subst h
      simp [recordSet, recordGet]
    · simp [recordSet, recordGet, h, List.find?]
      simpa [recordGet] using ih

theorem recordGet_recordSet_ne (m : JsRecord) (k k' v : String) (h : k' ≠ k) :
    recordGet (recordSet m k v) k' = recordGet m k' := by
  induction m with
  | nil => simp [recordSet, recordGet, List.find?, Ne.symm h]
  | cons p rest ih =>
    obtain ⟨k₀, v₀⟩ := p
    by_cases hk : k₀ = k
    · subst hk
      simp [recordSet, recordGet, List.find?, Ne.symm h]
    · by_cases hk' : k₀ = k'
      · subst hk'
        simp [recordSet, recordGet, hk, List.find?]
      · simp [recordSet, recordGet, hk, hk', List.find?]
        simpa [recordGet] using ih

theorem toNat_digitChar (n : Nat) (h : n < 10) : (digitChar n).toNat = 48 + n := by
  unfold digitChar Char.ofNat
  split
  · rfl
  · rename_i hv
    exact absurd (Or.inl (by omega)) hv

theorem digitVal_digitChar (n : Nat) (h : n < 10) : digitVal (digitChar n) = n := by
  simp [digitVal, toNat_digitChar n h]

theorem isDigitChar_digitChar (n : Nat) (h : n < 10) : isDigitChar (digitChar n) = true := by
  simp only [isDigitChar, toNat_digitChar n h, Bool.and_eq_true, decide_eq_true_eq]
  omega

theorem digitsToNat_append (xs ys : List Char) :
    digitsToNat (xs ++ ys) =
      ys.foldl (fun acc c => acc * 10 + digitVal c) (digitsToNat xs) := by
  simp [digitsToNat, List.foldl_append]

theorem natDigitsAux_ne_nil (fuel n : Nat) (h : n < fuel) : natDigitsAux fuel n ≠ [] := by
  cases fuel with
  | zero => omega
  | succ f =>
    simp only [natDigitsAux]
    split
    · simp
    · simp

theorem digitsToNat_natDigitsAux (fuel n : Nat) (h : n < fuel) :
    digitsToNat (natDigitsAux fuel n) = n := by
  induction fuel generalizing n with
  | zero => omega
  | succ f ih =>
    simp only [natDigitsAux]
    split
    · rename_i h10
      simp [digitsToNat, digitVal_digitChar n h10]
    · rename_i h10
      push_neg at h10
      rw [digitsToNat_append]
      have hdiv : n / 10 < f := by
        have h1 : n / 10 < n := Nat.div_lt_self (by omega) (by omega)
        omega
      rw [ih (n / 10) hdiv]
      simp [digitVal_digitChar (n % 10) (Nat.mod_lt n (by omega))]
      omega

theorem mem_natDigitsAux_isDigit (fuel n : Nat) (c : Char)
    (hc : c ∈ natDigitsAux fuel n) : isDigitChar c = true := by
  induction fuel generalizing n with
  | zero => simp [natDigitsAux] at hc
  | succ f ih =>
    simp only [natDigitsAux] at hc
    split at hc
    · rename_i h10
      simp at hc
      subst hc
      exact isDigitChar_digitChar n h10
    · rename_i h10
      rw [List.mem_append] at hc
      rcases hc with hc | hc
      · exact ih (n / 10) hc
      · simp at hc
        subst hc
        exact isDigitChar_digitChar (n % 10) (Nat.mod_lt n (by omega))

theorem natDigitsAux_length_le (fuel n k : Nat) (h : n < fuel) (hk : n < 10 ^ k)
    (hk0 : 0 < k) : (natDigitsAux fuel n).length ≤ k := by
  induction fuel generalizing n k with
  | zero => omega
  | succ f ih =>
    simp only [natDigitsAux]
    split
    · simpa using hk0
    · rename_i h10
      push_neg at h10
      rw [List.length_append]
      have hdivf : n / 10 < f := by
        have h1 : n / 10 < n := Nat.div_lt_self (by omega) (by omega)
        omega
      have hkk : 1 < k := by
        by_contra hcon
        push_neg at hcon
        have : k = 1 := by omega
        subst this
        simp at hk
        omega
      have hdivk : n / 10 < 10 ^ (k - 1) := by
        rw [Nat.div_lt_iff_lt_mul (by omega)]
        calc n < 10 ^ k := hk
        _ = 10 ^ (k - 1) * 10 := by
              rw [← Nat.pow_succ]
              congr 1
              omega
      have := ih (n / 10) (k - 1) hdivf hdivk (by omega)
      simp only [List.length_cons, List.length_nil]
      omega

theorem digitsToNat_padZeros (d : Nat) (cs : List Char) :
    digitsToNat (padZeros d cs) = digitsToNat cs := by
  simp only [padZeros, digitsToNat]
  rw [List.foldl_append]
  have : ∀ m acc, acc = 0 →
      List.foldl (fun acc c => acc * 10 + digitVal c)
        acc (List.replicate m (digitChar 0)) = 0 := by
    intro m
    induction m with
    | zero => intro acc h; simp [h]
    | succ k ih =>
      intro acc h
      rw [List.replicate_succ, List.foldl_cons]
      exact ih _ (by simp [h, digitVal_digitChar 0 (by omega)])
  rw [this _ 0 rfl]

theorem padZeros_length (d : Nat) (cs : List Char) (h : cs.length ≤ d) :
    (padZeros d cs).length = d := by
  simp [padZeros]
  omega

theorem mem_padZeros_isDigit (d : Nat) (cs : List Char) (c : Char)
    (hcs : ∀ x ∈ cs, isDigitChar x = true) (hc : c ∈ padZeros d cs) :
    isDigitChar c = true := by
  simp only [padZeros, List.mem_append] at hc
  rcases hc with hc | hc
  · rw [List.eq_of_mem_replicate hc]
    exact isDigitChar_digitChar 0 (by omega)
  · exact hcs c hc

theorem natToString_data_ne_nil (n : Nat) : (natToString n).data ≠ [] := by
  simpa [natToString] using natDigitsAux_ne_nil (n + 1) n (by omega)

theorem str_append_ne_empty (s t : String) (h : t.data ≠ []) : s ++ t ≠ "" := by
  intro hcon
  have hd := congrArg String.data hcon
  rw [String.data_append, show ("" : String).data = [] from rfl] at hd
  exact h (List.append_eq_nil.mp hd).2

theorem jsNumToString_ne_empty (q : ℚ) : jsNumToString q ≠ "" := by
  simp only [jsNumToString]
  split
  · exact str_append_ne_empty _ _ (natToString_data_ne_nil _)
  · exact str_append_ne_empty _ _ (fun hp =>
      absurd (List.append_eq_nil.mp hp).2 (natDigitsAux_ne_nil _ _ (by omega)))

theorem takeWhile_append_not (p : Char → Bool) (xs : List Char) (y : Char)
    (ys : List Char) (h : ∀ x ∈ xs, p x = true) (hy : p y = false) :
    (xs ++ y :: ys).takeWhile p = xs ∧ (xs ++ y :: ys).dropWhile p = y :: ys := by
  induction xs with
  | nil => simp [List.takeWhile, List.dropWhile, hy]
  | cons x xs ih =>
    have hx : p x = true := h x (by simp)
    have := ih (fun a ha => h a (by simp [ha]))
    simp [List.takeWhile, List.dropWhile, hx, this.1, this.2]

theorem parseDigits_natDigits (n bound : Nat) (h : n < bound) :
    parseDigits (natDigitsAux bound n) = some n := by
  rw [parseDigits, if_pos, digitsToNat_natDigitsAux bound n h]
  refine ⟨natDigitsAux_ne_nil bound n h, ?_⟩
  rw [List.all_eq_true]
  exact fun c hc => mem_natDigitsAux_isDigit bound n c hc

theorem parseDigits_padZeros_natDigits (d n : Nat) (h : n < 10 ^ d) (hd : 0 < d) :
    parseDigits (padZeros d (natDigitsAux (n + 1) n)) = some n ∧
      (padZeros d (natDigitsAux (n + 1) n)).length = d := by
  have hlen : (natDigitsAux (n + 1) n).length ≤ d :=
    natDigitsAux_length_le (n + 1) n d (by omega) h hd
  constructor
  · rw [parseDigits, if_pos, digitsToNat_padZeros,
      digitsToNat_natDigitsAux (n + 1) n (by omega)]
    constructor
    · intro hnil
      have := padZeros_length d (natDigitsAux (n + 1) n) hlen
      rw [hnil] at this
      simp only [List.length_nil] at this
      omega
    · rw [List.all_eq_true]
      intro c hc
      exact mem_padZeros_isDigit d _ c
        (fun x hx => mem_natDigitsAux_isDigit (n + 1) n x hx) hc
  · exact padZeros_length d _ hlen

theorem dash_not_digit : isDigitChar '-' = false := by decide

theorem dot_not_digit_char : isDigitChar '.' = false := by decide

theorem dot_not_digit (c : Char) (hc : isDigitChar c = true) : ¬ (c = '.') :=
  fun hcon => by
    rw [hcon, dot_not_digit_char] at hc
    exact Bool.noConfusion hc

/-- Parsing back the output of `toFixed` recovers exactly the rounded value. -/
theorem parseDecimal_toFixed (d : Nat) (q : ℚ) (hd : 0 < d) :
    parseDecimal (toFixed d q) = some (roundToFixed d q) := by
  set m : Nat := toFixedMantissa d q with hm
  have hmod : m % 10 ^ d < 10 ^ d := Nat.mod_lt m (Nat.pos_pow_of_pos d (by omega))
  obtain ⟨hfracparse, hfraclen⟩ := parseDigits_padZeros_natDigits d (m % 10 ^ d) hmod hd
  have hintne := natDigitsAux_ne_nil (m / 10 ^ d + 1) (m / 10 ^ d) (by omega)
  have hdata : (toFixed d q).data =
      (if q < 0 then ['-'] else []) ++
        (natDigitsAux (m / 10 ^ d + 1) (m / 10 ^ d) ++
          ('.' :: padZeros d (natDigitsAux (m % 10 ^ d + 1) (m % 10 ^ d)))) := by
    rw [toFixed, ← hm, if_neg (show ¬ d = 0 by omega)]
    rw [String.data_append, String.data_append, List.append_assoc]
    congr 1
    by_cases hq : q < 0
    · rw [if_pos hq, if_pos hq]
    · rw [if_neg hq, if_neg hq]
  have hsplit := takeWhile_append_not (fun c => c ≠ '.')
    (natDigitsAux (m / 10 ^ d + 1) (m / 10 ^ d)) '.'
    (padZeros d (natDigitsAux (m % 10 ^ d + 1) (m % 10 ^ d)))
    (fun x hx => by
      simp only [ne_eq, decide_eq_true_eq]
      exact dot_not_digit x (mem_natDigitsAux_isDigit _ _ x hx))
    (by decide)
  have hunsigned : parseUnsignedDecimal
      (natDigitsAux (m / 10 ^ d + 1) (m / 10 ^ d) ++
        ('.' :: padZeros d (natDigitsAux (m % 10 ^ d + 1) (m % 10 ^ d)))) =
      some ((m : ℚ) / 10 ^ d) := by
    rw [parseUnsignedDecimal]
    simp only [hsplit.1, hsplit.2]
    rw [parseDigits_natDigits (m / 10 ^ d) (m / 10 ^ d + 1) (by omega), hfracparse,
      hfraclen]
    have hdm := Nat.div_add_mod m (10 ^ d)
    have hcast : ((m / 10 ^ d : Nat) : ℚ) * 10 ^ d + ((m % 10 ^ d : Nat) : ℚ) = (m : ℚ) := by
      have h2 := congrArg (fun n : Nat => (n : ℚ)) hdm
      push_cast at h2
      linarith [h2]
    have hpow : (10 : ℚ) ^ d ≠ 0 := by positivity
    field_simp
    linarith [hcast]
  by_cases hq : q < 0
  · rw [parseDecimal, hdata, if_pos hq]
    simp only [List.singleton_append, List.head?_cons, List.tail_cons]
    rw [if_pos trivial, hunsigned]
    simp only [Option.map_some']
    rw [roundToFixed, if_pos hq, ← hm]
    congr 1
    ring
  · rw [parseDecimal, hdata, if_neg hq]
    simp only [List.nil_append]
    obtain ⟨c, cs, hcons⟩ := List.exists_cons_of_ne_nil hintne
    have hcdigit : isDigitChar c = true := by
      apply mem_natDigitsAux_isDigit (m / 10 ^ d + 1) (m / 10 ^ d)
      rw [hcons]
      simp
    have hcne : ¬ (c = '-') := by
      intro hcon
      rw [hcon, dash_not_digit] at hcdigit
      exact Bool.noConfusion hcdigit
    rw [hcons, List.cons_append, List.head?_cons]
    rw [if_neg (by simp [hcne])]
    rw [← List.cons_append, ← hcons, hunsigned]
    rw [roundToFixed, if_neg hq, ← hm]
    congr 1
    ring

/-- The value printed by `toFixed d` is within half a unit in the last place
of the original number. -/
theorem roundToFixed_close (d : Nat) (q : ℚ) :
    abs (roundToFixed d q - q) ≤ 1 / (2 * 10 ^ d) := by
  have hpow : (0 : ℚ) < 10 ^ d := by positivity
  have hx0 : (0 : ℚ) ≤ |q| * 10 ^ d + 1 / 2 := by positivity
  have hfl : (0 : ℤ) ≤ ⌊|q| * 10 ^ d + 1 / 2⌋ := Int.floor_nonneg.mpr hx0
  have hcast : ((⌊|q| * 10 ^ d + 1 / 2⌋.toNat : ℚ)) =
      ((⌊|q| * 10 ^ d + 1 / 2⌋ : ℤ) : ℚ) := by
    exact_mod_cast congrArg (fun z : ℤ => (z : ℚ)) (Int.toNat_of_nonneg hfl)
  have h1 : ((⌊|q| * 10 ^ d + 1 / 2⌋ : ℤ) : ℚ) ≤ |q| * 10 ^ d + 1 / 2 :=
    Int.floor_le _
  have h2 : |q| * 10 ^ d + 1 / 2 < ((⌊|q| * 10 ^ d + 1 / 2⌋ : ℤ) : ℚ) + 1 :=
    Int.lt_floor_add_one _
  have habs : abs ((⌊|q| * 10 ^ d + 1 / 2⌋.toNat : ℚ) / 10 ^ d - |q|) ≤
      1 / (2 * 10 ^ d) := by
    have key : abs (((⌊|q| * 10 ^ d + 1 / 2⌋ : ℤ) : ℚ) - |q| * 10 ^ d) ≤ 1 / 2 := by
      rw [abs_le]
      constructor
      · linarith
      · linarith
    have heq : ((⌊|q| * 10 ^ d + 1 / 2⌋ : ℤ) : ℚ) / 10 ^ d - |q| =
        (((⌊|q| * 10 ^ d + 1 / 2⌋ : ℤ) : ℚ) - |q| * 10 ^ d) / 10 ^ d := by
      field_simp
      ring
    rw [hcast, heq, abs_div, abs_of_pos hpow,
      show (1 : ℚ) / (2 * 10 ^ d) = (1 / 2) / 10 ^ d by ring]
    gcongr
  rw [roundToFixed, toFixedMantissa]
  by_cases hq : q < 0
  · rw [if_pos hq]
    have heq2 : (-1) * (⌊|q| * 10 ^ d + 1 / 2⌋.toNat : ℚ) / 10 ^ d - q =
        -((⌊|q| * 10 ^ d + 1 / 2⌋.toNat : ℚ) / 10 ^ d - |q|) := by
      rw [abs_of_neg hq]
      ring
    rw [heq2, abs_neg]
    exact habs
  · rw [if_neg hq]
    have heq2 : 1 * (⌊|q| * 10 ^ d + 1 / 2⌋.toNat : ℚ) / 10 ^ d - q =
        (⌊|q| * 10 ^ d + 1 / 2⌋.toNat : ℚ) / 10 ^ d - |q| := by
      rw [abs_of_nonneg (not_lt.mp hq)]
      ring
    rw [heq2]
    exact habs

theorem lexCompareChars_antisym (a b : List Char) :
    lexCompareChars b a = - lexCompareChars a b := by
  induction a generalizing b with
  | nil => cases b <;> simp [lexCompareChars]
  | cons x as ih =>
    cases b with
    | nil => simp [lexCompareChars]
    | cons y bs =>
      simp only [lexCompareChars]
      by_cases h1 : x.toNat < y.toNat
      · simp only [if_pos h1, if_neg (show ¬ y.toNat < x.toNat by omega)]
        decide
      · by_cases h2 : y.toNat < x.toNat
        · simp only [if_pos h2, if_neg h1]
        · simp only [if_neg h1, if_neg h2]
          exact ih bs

theorem lexCompareChars_self (a : List Char) : lexCompareChars a a = 0 := by
  have := lexCompareChars_antisym a a
  omega

theorem lexCompareChars_trans (a b c : List Char) (hab : lexCompareChars a b ≤ 0)
    (hbc : lexCompareChars b c ≤ 0) : lexCompareChars a c ≤ 0 := by
  induction a generalizing b c with
  | nil => cases c <;> simp [lexCompareChars]
  | cons x as ih =>
    cases b with
    | nil => simp [lexCompareChars] at hab
    | cons y bs =>
      cases c with
      | nil => simp [lexCompareChars] at hbc
      | cons z cs =>
        simp only [lexCompareChars] at hab hbc ⊢
        by_cases hxy1 : x.toNat < y.toNat
        · by_cases hyz1 : y.toNat < z.toNat
          · rw [if_pos (show x.toNat < z.toNat by omega)]
            omega
          · by_cases hyz2 : z.toNat < y.toNat
            · rw [if_neg hyz1, if_pos hyz2] at hbc
              omega
            · rw [if_pos (show x.toNat < z.toNat by omega)]
              omega
        · by_cases hxy2 : y.toNat < x.toNat
          · rw [if_neg hxy1, if_pos hxy2] at hab
            omega
          · by_cases hyz1 : y.toNat < z.toNat
            · rw [if_pos (show x.toNat < z.toNat by omega)]
              omega
            · by_cases hyz2 : z.toNat < y.toNat
              · rw [if_neg hyz1, if_pos hyz2] at hbc
                omega
              · rw [if_neg (show ¬ x.toNat < z.toNat by omega),
                  if_neg (show ¬ z.toNat < x.toNat by omega)]
                rw [if_neg hxy1, if_neg hxy2] at hab
                rw [if_neg hyz1, if_neg hyz2] at hbc
                exact ih bs cs hab hbc

theorem lexCompareChars_nil_left (cs : List Char) (h : cs ≠ []) :
    lexCompareChars [] cs = -1 := by
  cases cs with
  | nil => exact absurd rfl h
  | cons c cs => rfl

theorem lexCompareChars_nil_right (cs : List Char) (h : cs ≠ []) :
    lexCompareChars cs [] = 1 := by
  cases cs with
  | nil => exact absurd rfl h
  | cons c cs => rfl

theorem localeCompare_empty_left (s : String) (h : s ≠ "") :
    localeCompare "" s = -1 := by
  rw [localeCompare, show ("" : String).data = [] from rfl]
  apply lexCompareChars_nil_left
  intro hcon
  exact h (by
    cases s with
    | mk data => cases hcon; rfl)

theorem localeCompare_empty_right (s : String) (h : s ≠ "") :
    localeCompare s "" = 1 := by
  rw [localeCompare, show ("" : String).data = [] from rfl]
  apply lexCompareChars_nil_right
  intro hcon
  exact h (by
    cases s with
    | mk data => cases hcon; rfl)

theorem localeCompare_num_empty (q : ℚ) : localeCompare (jsNumToString q) "" = 1 :=
  localeCompare_empty_right _ (jsNumToString_ne_empty q)

theorem localeCompare_empty_num (q : ℚ) : localeCompare "" (jsNumToString q) = -1 :=
  localeCompare_empty_left _ (fun h => jsNumToString_ne_empty q h)

theorem localeCompare_refl (s : String) : localeCompare s s = 0 :=
  lexCompareChars_self s.data

theorem jsValCmp_swap (av bv : JsSortVal) : jsValCmp bv av = - jsValCmp av bv := by
  cases av with
  | str s =>
    cases bv with
    | str t =>
      simp only [jsValCmp, jsSortValToString, localeCompare]
      rw [lexCompareChars_antisym s.data t.data]
      push_cast
      ring
    | num y =>
      simp only [jsValCmp, jsSortValToString, localeCompare]
      rw [lexCompareChars_antisym s.data (jsNumToString y).data]
      push_cast
      ring
  | num x =>
    cases bv with
    | str t =>
      simp only [jsValCmp, jsSortValToString, localeCompare]
      rw [lexCompareChars_antisym (jsNumToString x).data t.data]
      push_cast
      ring
    | num y =>
      simp only [jsValCmp]
      ring

theorem getSortVal_ok (c : Component) (f : SortField) : valOkFor f (getSortVal c f) := by
  cases f with
  | partNumber =>
    cases h : c.partNumber <;>
      simp [getSortVal, valOkFor, SortField.isNumericField, h]
  | manufacturer =>
    cases h : c.manufacturer <;>
      simp [getSortVal, valOkFor, SortField.isNumericField, h]
  | specMatch =>
    cases h : c.specMatch <;>
      simp [getSortVal, valOkFor, SortField.isNumericField, h]
  | totalScore =>
    cases h : c.totalScore <;>
      simp [getSortVal, valOkFor, SortField.isNumericField, h]
  | price =>
    cases h : c.price <;>
      simp [getSortVal, valOkFor, SortField.isNumericField, h]

theorem jsValCmp_trans_ok (f : SortField) (av bv cv : JsSortVal)
    (ha : valOkFor f av) (hb : valOkFor f bv) (hc : valOkFor f cv)
    (hab : jsValCmp av bv ≤ 0) (hbc : jsValCmp bv cv ≤ 0) :
    jsValCmp av cv ≤ 0 := by
  cases av with
  | num x =>
    have hfnum : f.isNumericField = true := ha
    cases bv with
    | num y =>
      cases cv with
      | num z =>
        simp only [jsValCmp] at hab hbc ⊢
        linarith
      | str s =>
        have hs : s = "" := hc hfnum
        subst hs
        simp only [jsValCmp, jsSortValToString, localeCompare_num_empty] at hbc
        norm_num at hbc
    | str s =>
      have hs : s = "" := hb hfnum
      subst hs
      simp only [jsValCmp, jsSortValToString, localeCompare_num_empty] at hab
      norm_num at hab
  | str s =>
    cases cv with
    | num z =>
      have hfnum : f.isNumericField = true := hc
      have hs : s = "" := ha hfnum
      subst hs
      simp only [jsValCmp, jsSortValToString, localeCompare_empty_num]
      norm_num
    | str u =>
      cases bv with
      | num y =>
        have hfnum : f.isNumericField = true := hb
        have hs : s = "" := ha hfnum
        have hu : u = "" := hc hfnum
        subst hs
        subst hu
        simp only [jsValCmp, jsSortValToString, localeCompare_refl]
        norm_num
      | str t =>
        simp only [jsValCmp, jsSortValToString, localeCompare] at hab hbc ⊢
        have hab' : lexCompareChars s.data t.data ≤ 0 := by exact_mod_cast hab
        have hbc' : lexCompareChars t.data u.data ≤ 0 := by exact_mod_cast hbc
        exact_mod_cast lexCompareChars_trans s.data t.data u.data hab' hbc'

theorem componentCmp_swap (f : SortField) (dir : SortDirection) (a b : Component) :
    componentCmp f dir b a = - componentCmp f dir a b := by
  rw [componentCmp, componentCmp, jsValCmp_swap]
  ring

theorem componentCmp_total (f : SortField) (dir : SortDirection) (a b : Component) :
    componentCmp f dir a b ≤ 0 ∨ componentCmp f dir b a ≤ 0 := by
  by_cases h : componentCmp f dir a b ≤ 0
  · exact Or.inl h
  · right
    rw [componentCmp_swap]
    linarith

theorem componentCmp_trans (f : SortField) (dir : SortDirection) (a b c : Component)
    (hab : componentCmp f dir a b ≤ 0) (hbc : componentCmp f dir b c ≤ 0) :
    componentCmp f dir a c ≤ 0 := by
  cases dir with
  | asc =>
    simp only [componentCmp, dirMultiplier, mul_one] at hab hbc ⊢
    exact jsValCmp_trans_ok f _ _ _ (getSortVal_ok a f) (getSortVal_ok b f)
      (getSortVal_ok c f) hab hbc
  | desc =>
    simp only [componentCmp, dirMultiplier, mul_neg, mul_one] at hab hbc ⊢
    have hab' : jsValCmp (getSortVal b f) (getSortVal a f) ≤ 0 := by
      rw [jsValCmp_swap]
      linarith
    have hbc' : jsValCmp (getSortVal c f) (getSortVal b f) ≤ 0 := by
      rw [jsValCmp_swap]
      linarith
    have hres := jsValCmp_trans_ok f _ _ _ (getSortVal_ok c f) (getSortVal_ok b f)
      (getSortVal_ok a f) hbc' hab'
    rw [jsValCmp_swap] at hres
    linarith

/-- The sorted view is a permutation of the input list. -/
theorem sortedComponents_perm (comps : List Component) (f : SortField)
    (dir : SortDirection) : (sortedComponents comps f dir).Perm comps :=
  List.perm_insertionSort _ _

/-- The sorted view is ordered by the table comparator. -/
theorem sortedComponents_sorted (comps : List Component) (f : SortField)
    (dir : SortDirection) :
    (sortedComponents comps f dir).Sorted (fun a b => componentCmp f dir a b ≤ 0) := by
  haveI : IsTotal Component (fun a b => componentCmp f dir a b ≤ 0) :=
    ⟨componentCmp_total f dir⟩
  haveI : IsTrans Component (fun a b => componentCmp f dir a b ≤ 0) :=
    ⟨componentCmp_trans f dir⟩
  exact List.sorted_insertionSort _ comps

theorem componentCmp_asc_numeric_iff (f : SortField) (hf : f.isNumericField = true)
    (a b : Component) :
    (componentCmp f .asc a b ≤ 0) ↔ missingFirstLE (numericVal a f) (numericVal b f) := by
  have main : ∀ (x y : Option ℚ),
      (jsValCmp (match x with | some q => JsSortVal.num q | none => JsSortVal.str "")
        (match y with | some q => JsSortVal.num q | none => JsSortVal.str "") ≤ 0) ↔
      missingFirstLE x y := by
    intro x y
    cases x with
    | none =>
      cases y with
      | none =>
        simp only [jsValCmp, jsSortValToString, localeCompare_refl, missingFirstLE]
        norm_num
      | some b =>
        simp only [jsValCmp, jsSortValToString, localeCompare_empty_num, missingFirstLE]
        norm_num
    | some a =>
      cases y with
      | none =>
        simp only [jsValCmp, jsSortValToString, localeCompare_num_empty, missingFirstLE]
        norm_num
      | some b =>
        simp only [jsValCmp, missingFirstLE]
        constructor
        · intro h
          linarith
        · intro h
          linarith
  cases f with
  | partNumber => simp [SortField.isNumericField] at hf
  | manufacturer => simp [SortField.isNumericField] at hf
  | specMatch =>
    simp only [componentCmp, dirMultiplier, mul_one, getSortVal, numericVal]
    exact main a.specMatch b.specMatch
  | totalScore =>
    simp only [componentCmp, dirMultiplier, mul_one, getSortVal, numericVal]
    exact main a.totalScore b.totalScore
  | price =>
    simp only [componentCmp, dirMultiplier, mul_one, getSortVal, numericVal]
    exact main a.price b.price

theorem toFixedMantissa_eq (d : Nat) (q : ℚ) (n : Nat)
    (h1 : (n : ℚ) ≤ |q| * 10 ^ d + 1 / 2) (h2 : |q| * 10 ^ d + 1 / 2 < n + 1) :
    toFixedMantissa d q = n := by
  rw [toFixedMantissa]
  have hfl : ⌊|q| * 10 ^ d + 1 / 2⌋ = (n : ℤ) := by
    rw [Int.floor_eq_iff]
    constructor
    · exact_mod_cast h1
    · exact_mod_cast h2
  rw [hfl]
  simp

/-! ## Claims about the result sorting -/

/-- C4: toggling the sort direction on the current sort column twice
returns the table to its exact previous state, so the displayed list
returns to its original order: the rendered view is recomputed from the
unchanged result list, the unchanged sort column and the twice-flipped
direction. -/
theorem C4_sort_toggle_involution (comps : List Component) (s : TableState)
    (f : SortField) (h : s.sortField = f) :
    displayedList comps (handleSort (handleSort s f) f) = displayedList comps s := by
  subst h
  have hstate : handleSort (handleSort s s.sortField) s.sortField = s := by
    obtain ⟨f0, d0, rows⟩ := s
    cases d0 <;> simp [handleSort]
  rw [hstate]

/-- Witness for C4 at a concrete table state and component list. -/
theorem C4_sort_toggle_involution_witness :
    displayedList [{ id := "a", totalScore := some 90 }]
        (handleSort
          (handleSort
            { sortField := .totalScore, sortDirection := .desc, expandedRows := [] }
            .totalScore)
          .totalScore) =
      displayedList [{ id := "a", totalScore := some 90 }]
        { sortField := .totalScore, sortDirection := .desc, expandedRows := [] } :=
  C4_sort_toggle_involution [{ id := "a", totalScore := some 90 }]
    { sortField := .totalScore, sortDirection := .desc, expandedRows := [] }
    .totalScore rfl

theorem insertionSort_pair {α : Type} (r : α → α → Prop) [DecidableRel r] (a b : α) :
    List.insertionSort r [a, b] = if r a b then [a, b] else [b, a] := by
  simp only [List.insertionSort, List.orderedInsert]

/-- C3 (amended): the sort returns a permutation ordered by the source
comparator, and on a numeric column that comparator treats a missing value
as the *empty string*, which sorts before every present value — not as the
number zero: both values compare numerically only when both are present. -/
theorem C3_sort_missing_value_order (comps : List Component) (f : SortField)
    (dir : SortDirection) :
    (sortedComponents comps f dir).Perm comps ∧
    (sortedComponents comps f dir).Sorted (fun a b => componentCmp f dir a b ≤ 0) ∧
    (f.isNumericField = true → ∀ a b : Component,
      ((componentCmp f .asc a b ≤ 0) ↔
        missingFirstLE (numericVal a f) (numericVal b f))) :=
  ⟨sortedComponents_perm comps f dir, sortedComponents_sorted comps f dir,
    fun hf a b => componentCmp_asc_numeric_iff f hf a b⟩

/-- Witness for C3 (amended) at a concrete column and component pair. -/
theorem C3_sort_missing_value_order_witness :
    SortField.isNumericField .specMatch = true ∧
    ((componentCmp .specMatch .asc { id := "a", specMatch := some 0 }
        ({ id := "b" } : Component) ≤ 0) ↔
      missingFirstLE (numericVal { id := "a", specMatch := some 0 } .specMatch)
        (numericVal ({ id := "b" } : Component) .specMatch)) :=
  ⟨by decide,
    (C3_sort_missing_value_order [] .specMatch .asc).2.2 (by decide)
      { id := "a", specMatch := some 0 } { id := "b" }⟩

/-- C3 counterexample: on the `specMatch` column ascending, a present score
`0` and a missing score come out missing-first (the missing value became
the string `""`, sorting before the string `"0"`), while the claim's
missing-as-zero numeric comparison keeps the tied rows in input order; on
the `price` column a present `-1` and a missing price come out in strictly
opposite orders under the two readings. -/
theorem C3_counterexample :
    (sortedComponents [{ id := "a", specMatch := some 0 }, { id := "b" }]
        .specMatch .asc).map Component.id = ["b", "a"] ∧
    (sortedComponentsSpec [{ id := "a", specMatch := some 0 }, { id := "b" }]
        .specMatch .asc).map Component.id = ["a", "b"] ∧
    (sortedComponents [{ id := "c", price := some (-1) }, { id := "d" }]
        .price .asc).map Component.id = ["d", "c"] ∧
    (sortedComponentsSpec [{ id := "c", price := some (-1) }, { id := "d" }]
        .price .asc).map Component.id = ["c", "d"] := by
  have h1 : componentCmp .specMatch .asc { id := "a", specMatch := some 0 }
      ({ id := "b" } : Component) = 1 := by
    simp only [componentCmp, getSortVal, jsValCmp, jsSortValToString, dirMultiplier]
    rw [show jsNumToString 0 = "0" from by decide,
      show localeCompare "0" "" = 1 from by decide]
    norm_num
  have h2 : specCmpOfClaim .specMatch .asc { id := "a", specMatch := some 0 }
      ({ id := "b" } : Component) = 0 := by
    simp only [specCmpOfClaim, specSortValOfClaim, jsValCmp, dirMultiplier]
    norm_num
  have h3 : componentCmp .price .asc { id := "c", price := some (-1) }
      ({ id := "d" } : Component) = 1 := by
    simp only [componentCmp, getSortVal, jsValCmp, jsSortValToString, dirMultiplier]
    rw [show jsNumToString (-1) = "-1" from by decide,
      show localeCompare "-1" "" = 1 from by decide]
    norm_num
  have h4 : specCmpOfClaim .price .asc { id := "c", price := some (-1) }
      ({ id := "d" } : Component) = -1 := by
    simp only [specCmpOfClaim, specSortValOfClaim, jsValCmp, dirMultiplier]
    norm_num
  refine ⟨?_, ?_, ?_, ?_⟩
  · rw [sortedComponents, jsSortBy, insertionSort_pair,
      if_neg (by rw [h1]; norm_num)]
    decide
  · rw [sortedComponentsSpec, insertionSort_pair,
      if_pos (by rw [h2])]
    decide
  · rw [sortedComponents, jsSortBy, insertionSort_pair,
      if_neg (by rw [h3]; norm_num)]
    decide
  · rw [sortedComponentsSpec, insertionSort_pair,
      if_pos (by rw [h4]; norm_num)]
    decide

/-! ## Claims about row expansion, explanations and the cache -/

theorem correctedExplanation_ne_empty (c : Component) (q : String) :
    correctedExplanation c q ≠ "" := by
  rw [correctedExplanation]
  exact str_append_ne_empty _ _ (by decide)

theorem fallbackExplanation_ne_empty (c : Component) (q : String) :
    fallbackExplanation c q ≠ "" := by
  rw [fallbackExplanation]
  exact str_append_ne_empty _ _ (by decide)

theorem recordTruthy_recordSet_self (m : JsRecord) (k v : String) (hv : v ≠ "") :
    recordTruthy (recordSet m k v) k = true := by
  simp [recordTruthy, recordGet_recordSet_self, hv]

theorem recordTruthy_recordSet_ne (m : JsRecord) (k k' v : String) (h : k' ≠ k) :
    recordTruthy (recordSet m k v) k' = recordTruthy m k' := by
  simp [recordTruthy, recordGet_recordSet_ne m k k' v h]

theorem searchComponents_explanations (s : AppState) (q : String) (o : SearchOutcome) :
    (searchComponents s q o).explanations = s.explanations := by
  simp only [searchComponents]
  split
  · rfl
  · split
    · rfl
    · split
      · rfl
      · rfl

theorem searchComponents_explainLog (s : AppState) (q : String) (o : SearchOutcome) :
    (searchComponents s q o).explainLog = s.explainLog := by
  simp only [searchComponents]
  split
  · rfl
  · split
    · rfl
    · split
      · rfl
      · rfl

theorem searchComponents_query (s : AppState) (q : String) (o : SearchOutcome) :
    (searchComponents s q o).query = s.query := by
  simp only [searchComponents]
  split
  · rfl
  · split
    · rfl
    · split
      · rfl
      · rfl

theorem stepApp_truthy_mono (s : AppState) (e : AppEvent) (id : String)
    (h : recordTruthy s.explanations id = true) :
    recordTruthy (stepApp s e).explanations id = true := by
  cases e with
  | toggleRow id' =>
    simp only [stepApp, toggleRow]
    by_cases hmem : id' ∈ s.table.expandedRows
    · rw [if_pos hmem]
      exact h
    · rw [if_neg hmem]
      by_cases htr : recordTruthy s.explanations id'
      · rw [if_pos htr]
        exact h
      · rw [if_neg htr]
        have hne : id' ≠ id := by
          intro hcon
          rw [hcon] at htr
          exact htr h
        cases hfind : s.components.find? (fun c => c.id = id') with
        | none =>
          simp only [hfind]
          rw [recordTruthy_recordSet_ne _ _ _ _ (Ne.symm hne)]
          exact h
        | some comp =>
          simp only [hfind]
          exact h
  | explainSuccess req resp =>
    simp only [stepApp, applyExplainSuccess]
    by_cases hne : req.id = id
    · subst hne
      exact recordTruthy_recordSet_self _ _ _
        (correctedExplanation_ne_empty req.component req.query)
    · rw [recordTruthy_recordSet_ne _ _ _ _ (Ne.symm hne)]
      exact h
  | explainFailure req =>
    simp only [stepApp, applyExplainFailure]
    by_cases hne : req.id = id
    · subst hne
      exact recordTruthy_recordSet_self _ _ _
        (fallbackExplanation_ne_empty req.component req.query)
    · rw [recordTruthy_recordSet_ne _ _ _ _ (Ne.symm hne)]
      exact h
  | newSearch q o =>
    simp only [stepApp]
    rw [searchComponents_explanations]
    exact h

theorem stepApp_explainCount_preserved (s : AppState) (e : AppEvent) (id : String)
    (h : recordTruthy s.explanations id = true) :
    explainCount (stepApp s e) id = explainCount s id := by
  cases e with
  | toggleRow id' =>
    simp only [stepApp, toggleRow]
    by_cases hmem : id' ∈ s.table.expandedRows
    · rw [if_pos hmem]
      rfl
    · rw [if_neg hmem]
      by_cases htr : recordTruthy s.explanations id'
      · rw [if_pos htr]
        rfl
      · rw [if_neg htr]
        have hne : id' ≠ id := by
          intro hcon
          rw [hcon] at htr
          exact htr h
        cases hfind : s.components.find? (fun c => c.id = id') with
        | none =>
          simp only [hfind]
          rfl
        | some comp =>
          simp only [hfind, explainCount]
          rw [List.filter_cons_of_neg (by simpa using hne)]
  | explainSuccess req resp => rfl
  | explainFailure req => rfl
  | newSearch q o =>
    simp only [stepApp, explainCount]
    rw [searchComponents_explainLog]

theorem runApp_explainCount_eq (s : AppState) (events : List AppEvent) (id : String)
    (h : recordTruthy s.explanations id = true) :
    explainCount (runApp s events) id = explainCount s id := by
  induction events generalizing s with
  | nil => rfl
  | cons e es ih =>
    show explainCount (runApp (stepApp s e) es) id = explainCount s id
    rw [ih (stepApp s e) (stepApp_truthy_mono s e id h),
      stepApp_explainCount_preserved s e id h]

/-- C1 (amended): a row click issues an explanation request only when the
row was collapsed and no explanation is cached for it, and once an
explanation is recorded for an identifier no later sequence of events ever
issues another request for it. (While the first request is still
outstanding, however, collapsing and re-expanding issues a duplicate — see
the counterexample.) -/
theorem C1_request_guard_and_idempotence (s : AppState) (id : String) :
    ((toggleRow s id).explainLog ≠ s.explainLog →
      recordTruthy s.explanations id = false ∧ id ∉ s.table.expandedRows) ∧
    (recordTruthy s.explanations id = true →
      ∀ events : List AppEvent,
        explainCount (runApp s events) id = explainCount s id) := by
  constructor
  · intro hlog
    by_cases hmem : id ∈ s.table.expandedRows
    · exact absurd (by simp [toggleRow, hmem]) hlog
    · by_cases htr : recordTruthy s.explanations id
      · exact absurd (by simp [toggleRow, hmem, htr]) hlog
      · exact ⟨by simpa using htr, hmem⟩
  · intro h events
    exact runApp_explainCount_eq s events id h

/-- Witness for C1 (amended): with an explanation cached for `"a"`, three
further clicks on the row issue no request. -/
theorem C1_request_guard_and_idempotence_witness :
    recordTruthy [("a", "cached text")] "a" = true ∧
    explainCount (runApp
      { query := "q", components := [{ id := "a" }],
        explanations := [("a", "cached text")] }
      [.toggleRow "a", .toggleRow "a", .toggleRow "a"]) "a" =
      explainCount
        { query := "q", components := [{ id := "a" }],
          explanations := [("a", "cached text")] } "a" :=
  ⟨by decide,
    (C1_request_guard_and_idempotence
      { query := "q", components := [{ id := "a" }],
        explanations := [("a", "cached text")] } "a").2 (by decide)
      [.toggleRow "a", .toggleRow "a", .toggleRow "a"]⟩

/-- C1 counterexample: expanding, collapsing and re-expanding row `"a"`
before any response arrives issues two explanation requests for `"a"`: the
guard only checks the cache, never the outstanding request. -/
theorem C1_counterexample :
    explainCount (runApp { query := "q", components := [{ id := "a" }] }
      [.toggleRow "a", .toggleRow "a", .toggleRow "a"]) "a" = 2 := by
  decide

/-- C2 (amended): the explanation cache is never cleared — a completed
search (valid or not, success or failure) leaves every cached explanation
in place — and a response arriving after the query and result set changed
is still applied under its identifier, with no staleness check; entries can
therefore exist for identifiers not in the current result set. -/
theorem C2_cache_persists_and_stale_applied (s : AppState) (q : String)
    (o : SearchOutcome) (req : ExplainRequest) (resp : ExplainResponse) :
    (searchComponents s q o).explanations = s.explanations ∧
    (stepApp s (.newSearch q o)).explanations = s.explanations ∧
    recordGet ((applyExplainSuccess s req resp).explanations) req.id =
      some (correctedExplanation req.component req.query) :=
  ⟨searchComponents_explanations s q o,
    searchComponents_explanations { s with query := q } q o,
    recordGet_recordSet_self _ _ _⟩

/-- C2 counterexample: an explanation cached for `"a"` survives a new
search that replaces the result set with `["b"]`, and a stale response for
`"a"` arriving after that search is applied — in both final states the
cache holds an entry for `"a"` although `"a"` is not in the result set. -/
theorem C2_counterexample :
    (recordGet (runApp { query := "q1", components := [{ id := "a" }] }
        [.toggleRow "a",
         .explainSuccess ⟨"a", { id := "a" }, "q1"⟩ ⟨"resp text", "a"⟩,
         .newSearch "5V regulator" (.success [{ id := "b", spec_match := some 90 }])]).explanations
        "a" = some (correctedExplanation { id := "a" } "q1") ∧
      (runApp { query := "q1", components := [{ id := "a" }] }
        [.toggleRow "a",
         .explainSuccess ⟨"a", { id := "a" }, "q1"⟩ ⟨"resp text", "a"⟩,
         .newSearch "5V regulator" (.success [{ id := "b", spec_match := some 90 }])]).components.map
        Component.id = ["b"]) ∧
    (recordGet (runApp { query := "q1", components := [{ id := "a" }] }
        [.toggleRow "a",
         .newSearch "5V regulator" (.success [{ id := "b", spec_match := some 90 }]),
         .explainSuccess ⟨"a", { id := "a" }, "q1"⟩ ⟨"stale text", "a"⟩]).explanations
        "a" = some (correctedExplanation { id := "a" } "q1") ∧
      (runApp { query := "q1", components := [{ id := "a" }] }
        [.toggleRow "a",
         .newSearch "5V regulator" (.success [{ id := "b", spec_match := some 90 }]),
         .explainSuccess ⟨"a", { id := "a" }, "q1"⟩ ⟨"stale text", "a"⟩]).components.map
        Component.id = ["b"]) := by
  decide

/-- C5: a resolved explanation is stored under the identifier it was
requested for, with a text built from that component's own fields; entries
for every other identifier are untouched, and two responses for different
identifiers produce the same cache in either arrival order. -/
theorem C5_response_attribution (s : AppState) (req : ExplainRequest)
    (resp : ExplainResponse) :
    recordGet ((applyExplainSuccess s req resp).explanations) req.id =
      some (correctedExplanation req.component req.query) ∧
    (∀ id', id' ≠ req.id →
      recordGet ((applyExplainSuccess s req resp).explanations) id' =
        recordGet s.explanations id') ∧
    (∀ (req2 : ExplainRequest) (resp2 : ExplainResponse) (id' : String),
      req.id ≠ req2.id →
      recordGet ((applyExplainSuccess (applyExplainSuccess s req resp)
          req2 resp2).explanations) id' =
        recordGet ((applyExplainSuccess (applyExplainSuccess s req2 resp2)
          req resp).explanations) id') := by
  refine ⟨recordGet_recordSet_self _ _ _, ?_, ?_⟩
  · intro id' hne
    exact recordGet_recordSet_ne _ _ _ _ hne
  · intro req2 resp2 id' hne
    simp only [applyExplainSuccess]
    by_cases h2 : id' = req2.id
    · subst h2
      rw [recordGet_recordSet_self,
        recordGet_recordSet_ne _ _ _ _ (by exact fun hcon => hne hcon.symm),
        recordGet_recordSet_self]
    · rw [recordGet_recordSet_ne _ _ _ _ h2]
      by_cases h1 : id' = req.id
      · subst h1
        rw [recordGet_recordSet_self, recordGet_recordSet_self]
      · rw [recordGet_recordSet_ne _ _ _ _ h1,
          recordGet_recordSet_ne _ _ _ _ h1,
          recordGet_recordSet_ne _ _ _ _ h2]

/-- Witness for C5 at concrete requests and responses arriving out of
order. -/
theorem C5_response_attribution_witness :
    (("b" : String) ≠ "a" ∧ ("a" : String) ≠ "b") ∧
    recordGet ((applyExplainSuccess { query := "q" }
        ⟨"a", { id := "a", partNumber := some "PN-A" }, "q"⟩
        ⟨"text", "a"⟩).explanations) "a" =
      some (correctedExplanation { id := "a", partNumber := some "PN-A" } "q") ∧
    recordGet ((applyExplainSuccess { query := "q" }
        ⟨"a", { id := "a", partNumber := some "PN-A" }, "q"⟩
        ⟨"text", "a"⟩).explanations) "b" = recordGet ([] : JsRecord) "b" :=
  ⟨⟨by decide, by decide⟩,
    (C5_response_attribution { query := "q" }
      ⟨"a", { id := "a", partNumber := some "PN-A" }, "q"⟩ ⟨"text", "a"⟩).1,
    (C5_response_attribution { query := "q" }
      ⟨"a", { id := "a", partNumber := some "PN-A" }, "q"⟩ ⟨"text", "a"⟩).2.1
      "b" (by decide)⟩

/-- C9: when the identifier is present in the result set, expanding the row
issues a request capturing that component and the current query, and a
failure of that request caches the fallback sentence built from the
captured component's own fields under the identifier, leaving the error
state and the result list untouched. -/
theorem C9_explain_failure_fallback (s : AppState) (id : String) (comp : Component)
    (hfind : s.components.find? (fun c => c.id = id) = some comp)
    (hexp : id ∉ s.table.expandedRows)
    (hcache : recordTruthy s.explanations id = false) :
    (toggleRow s id).pendingExplains = ⟨id, comp, s.query⟩ :: s.pendingExplains ∧
    recordGet ((applyExplainFailure (toggleRow s id)
        ⟨id, comp, s.query⟩).explanations) id =
      some (fallbackExplanation comp s.query) ∧
    (applyExplainFailure (toggleRow s id) ⟨id, comp, s.query⟩).error = s.error ∧
    (applyExplainFailure (toggleRow s id) ⟨id, comp, s.query⟩).components =
      s.components := by
  have htog : toggleRow s id =
      { s with
        table := { s.table with expandedRows := id :: s.table.expandedRows },
        pendingExplains := ⟨id, comp, s.query⟩ :: s.pendingExplains,
        explainLog := id :: s.explainLog } := by
    rw [toggleRow, if_neg hexp]
    rw [if_neg (by simp [hcache])]
    simp only [hfind]
  rw [htog]
  refine ⟨rfl, ?_, rfl, rfl⟩
  simp only [applyExplainFailure]
  exact recordGet_recordSet_self _ _ _

/-- Witness for C9 at a concrete state whose result set holds the row. -/
theorem C9_explain_failure_fallback_witness :
    ({ query := "q", components := [{ id := "a", partNumber := some "PN-A" }] } :
        AppState).components.find? (fun c => c.id = "a") =
      some { id := "a", partNumber := some "PN-A" } ∧
    recordGet ((applyExplainFailure
        (toggleRow
          { query := "q",
            components := [{ id := "a", partNumber := some "PN-A" }] }
          "a")
        ⟨"a", { id := "a", partNumber := some "PN-A" }, "q"⟩).explanations) "a" =
      some (fallbackExplanation { id := "a", partNumber := some "PN-A" } "q") :=
  ⟨by decide,
    (C9_explain_failure_fallback
      { query := "q", components := [{ id := "a", partNumber := some "PN-A" }] }
      "a" { id := "a", partNumber := some "PN-A" }
      (by decide) (by decide) (by decide)).2.1⟩

/-! ## Claims about search error handling -/

/-- C8: when the network call of a valid search fails, the user-visible
error message is set, the result list is cleared, loading ends, the query
state is untouched, and the Try Again button re-runs the search with that
same query, issuing a new `/api/recommend` request for it; the failure is
absorbed inside `searchComponents` (a total function here — the `catch`
swallows every rejection). -/
theorem C8_search_failure_and_retry (s : AppState) (q msg : String)
    (hvalid : isValidElectronicsQuery q = true) (hq : q = s.query) :
    (searchComponents s q (.failure msg)).error = some msg ∧
    (searchComponents s q (.failure msg)).components = [] ∧
    (searchComponents s q (.failure msg)).isLoading = false ∧
    (searchComponents s q (.failure msg)).query = s.query ∧
    (∀ o2 : SearchOutcome,
      (retrySearch (searchComponents s q (.failure msg)) o2).recommendLog =
        q :: (searchComponents s q (.failure msg)).recommendLog) := by
  have hfail : searchComponents s q (.failure msg) =
      { s with
        error := some msg,
        components := [],
        isLoading := false,
        recommendLog := q :: s.recommendLog } := by
    rw [searchComponents, if_neg (by simp [hvalid])]
  refine ⟨by rw [hfail], by rw [hfail], by rw [hfail], by rw [hfail], ?_⟩
  intro o2
  rw [retrySearch, hfail]
  show (searchComponents _ s.query o2).recommendLog = _
  rw [← hq]
  rw [searchComponents, if_neg (by simp [hvalid])]
  cases o2 with
  | failure m2 => rfl
  | success comps =>
    simp only []
    split
    · rfl
    · rfl

/-- Witness for C8 at a concrete valid query and failure message. -/
theorem C8_search_failure_and_retry_witness :
    isValidElectronicsQuery "5V regulator" = true ∧
    (searchComponents { query := "5V regulator" } "5V regulator"
      (.failure "Recommendation failed: 500 Internal Server Error")).error =
      some "Recommendation failed: 500 Internal Server Error" ∧
    (searchComponents { query := "5V regulator" } "5V regulator"
      (.failure "Recommendation failed: 500 Internal Server Error")).components = [] ∧
    (retrySearch (searchComponents { query := "5V regulator" } "5V regulator"
        (.failure "Recommendation failed: 500 Internal Server Error"))
        (.success [])).recommendLog =
      "5V regulator" :: (searchComponents { query := "5V regulator" } "5V regulator"
        (.failure "Recommendation failed: 500 Internal Server Error")).recommendLog :=
  ⟨by decide,
    (C8_search_failure_and_retry { query := "5V regulator" } "5V regulator"
      "Recommendation failed: 500 Internal Server Error" (by decide) rfl).1,
    (C8_search_failure_and_retry { query := "5V regulator" } "5V regulator"
      "Recommendation failed: 500 Internal Server Error" (by decide) rfl).2.1,
    (C8_search_failure_and_retry { query := "5V regulator" } "5V regulator"
      "Recommendation failed: 500 Internal Server Error" (by decide) rfl).2.2.2.2
      (.success [])⟩

/-- C10: the page can enter the error state with an empty result list
without any backend failure. A query whose whitespace-separated lowercased
words all belong to the hardcoded software-term blocklist is rejected
before any `/api/recommend` request is issued; and a successful response
whose components' maximum `spec_match` score is below 50 is converted into
the low-relevance error state with the result list cleared. -/
theorem C10_error_without_backend_failure (s : AppState) (q : String)
    (o : SearchOutcome) (comps : List Component) :
    ((splitWhitespace (jsToLower (jsTrim q)) ≠ [] ∧
      ∀ w ∈ splitWhitespace (jsToLower (jsTrim q)), w ∈ obviouslyBadTerms) →
      (searchComponents s q o).error = some (badQueryMessage q) ∧
      (searchComponents s q o).components = [] ∧
      (searchComponents s q o).recommendLog = s.recommendLog) ∧
    ((isValidElectronicsQuery q = true ∧ comps ≠ [] ∧ maxSpecMatch comps < 50) →
      (searchComponents s q (.success comps)).error =
        some (lowRelevanceMessage q) ∧
      (searchComponents s q (.success comps)).components = []) := by
  constructor
  · rintro ⟨hws, hbad⟩
    have hinvalid : isValidElectronicsQuery q = false := by
      rw [isValidElectronicsQuery]
      simp only []
      split
      · rfl
      · have hempty : (splitWhitespace (jsToLower (jsTrim q))).isEmpty = false := by
          cases hsp : splitWhitespace (jsToLower (jsTrim q)) with
          | nil => exact absurd hsp hws
          | cons w ws => rfl
        have hall : (splitWhitespace (jsToLower (jsTrim q))).all
            (fun w => obviouslyBadTerms.contains w) = true := by
          rw [List.all_eq_true]
          intro w hw
          simpa using hbad w hw
        rw [hempty, hall]
        rfl
    have hblock : searchComponents s q o =
        { s with
          error := some (badQueryMessage q),
          components := [],
          isLoading := false } := by
      rw [searchComponents, if_pos (by simp [hinvalid])]
    rw [hblock]
    exact ⟨rfl, rfl, rfl⟩
  · rintro ⟨hvalid, hne, hmax⟩
    have hlow : searchComponents s q (.success comps) =
        { s with
          error := some (lowRelevanceMessage q),
          components := [],
          isLoading := false,
          recommendLog := q :: s.recommendLog } := by
      rw [searchComponents, if_neg (by simp [hvalid])]
      simp only []
      rw [if_pos ⟨List.length_pos.mpr hne, hmax⟩]
    rw [hlow]
    exact ⟨rfl, rfl⟩

/-- Witness for C10: the all-blocklist query `"react css"` and a successful
response whose best `spec_match` is 10. -/
theorem C10_error_without_backend_failure_witness :
    (splitWhitespace (jsToLower (jsTrim "react css")) ≠ [] ∧
      ∀ w ∈ splitWhitespace (jsToLower (jsTrim "react css")),
        w ∈ obviouslyBadTerms) ∧
    (searchComponents { query := "react css" } "react css"
      (.success [{ id := "x", spec_match := some 90 }])).error =
      some (badQueryMessage "react css") ∧
    (isValidElectronicsQuery "5V regulator" = true ∧
      ([{ id := "x", spec_match := some 10 }] : List Component) ≠ [] ∧
      maxSpecMatch [{ id := "x", spec_match := some 10 }] < 50) ∧
    (searchComponents { query := "5V regulator" } "5V regulator"
      (.success [{ id := "x", spec_match := some 10 }])).error =
      some (lowRelevanceMessage "5V regulator") ∧
    (searchComponents { query := "5V regulator" } "5V regulator"
      (.success [{ id := "x", spec_match := some 10 }])).components = [] := by
  refine ⟨by decide, ?_, by decide, ?_, ?_⟩
  · exact ((C10_error_without_backend_failure { query := "react css" } "react css"
      (.success [{ id := "x", spec_match := some 90 }]) []).1 (by decide)).1
  · exact ((C10_error_without_backend_failure { query := "5V regulator" }
      "5V regulator" (.success [{ id := "x", spec_match := some 10 }])
      [{ id := "x", spec_match := some 10 }]).2 (by decide)).1
  · exact ((C10_error_without_backend_failure { query := "5V regulator" }
      "5V regulator" (.success [{ id := "x", spec_match := some 10 }])
      [{ id := "x", spec_match := some 10 }]).2 (by decide)).2

/-! ## Claims about the CSV export -/

theorem string_mk_data (s : String) : (⟨s.data⟩ : String) = s := by
  cases s
  rfl

theorem jsJoin_quoted_data (cells : List String) :
    (jsJoin "," (cells.map (fun cell => "\"" ++ cell ++ "\""))).data =
      quotedRowChars cells := by
  induction cells with
  | nil => rfl
  | cons c rest ih =>
    cases rest with
    | nil =>
      show (("\"" ++ c ++ "\"") : String).data = '"' :: (c.data ++ ['"'])
      rw [String.data_append, String.data_append]
      rfl
    | cons c2 rest2 =>
      show ((("\"" ++ c ++ "\"") ++ "," ++
          jsJoin "," (List.map (fun cell => "\"" ++ cell ++ "\"") (c2 :: rest2))) :
          String).data = '"' :: (c.data ++ '"' :: ',' :: quotedRowChars (c2 :: rest2))
      rw [String.data_append, String.data_append, String.data_append, ih]
      simp [quotedRowChars, List.append_assoc]

theorem quotedRowChars_length_ge (cells : List String) :
    cells.length ≤ (quotedRowChars cells).length := by
  induction cells with
  | nil => simp [quotedRowChars]
  | cons c rest ih =>
    cases rest with
    | nil => simp [quotedRowChars]
    | cons c2 rest2 =>
      simp only [quotedRowChars, List.length_cons, List.length_append] at *
      omega

theorem mem_quotedRowChars (cells : List String) (ch : Char)
    (hch : ch ∈ quotedRowChars cells) :
    ch = '"' ∨ ch = ',' ∨ ∃ s ∈ cells, ch ∈ s.data := by
  induction cells with
  | nil => simp [quotedRowChars] at hch
  | cons c rest ih =>
    cases rest with
    | nil =>
      simp only [quotedRowChars] at hch
      rcases List.mem_cons.mp hch with h | h
      · exact Or.inl h
      · rcases List.mem_append.mp h with h2 | h2
        · exact Or.inr (Or.inr ⟨c, by simp, h2⟩)
        · rcases List.mem_cons.mp h2 with h3 | h3
          · exact Or.inl h3
          · simp at h3
    | cons c2 rest2 =>
      simp only [quotedRowChars] at hch
      rcases List.mem_cons.mp hch with h | h
      · exact Or.inl h
      · rcases List.mem_append.mp h with h2 | h2
        · exact Or.inr (Or.inr ⟨c, by simp, h2⟩)
        · rcases List.mem_cons.mp h2 with h3 | h3
          · exact Or.inl h3
          · rcases List.mem_cons.mp h3 with h4 | h4
            · exact Or.inr (Or.inl h4)
            · rcases ih h4 with h5 | h5 | ⟨s, hs, hcs⟩
              · exact Or.inl h5
              · exact Or.inr (Or.inl h5)
              · exact Or.inr (Or.inr ⟨s, by simp [hs], hcs⟩)

theorem scanQuoted_exact (content rest : List Char) (h : '"' ∉ content) :
    scanQuoted (content ++ '"' :: rest) = some (content, rest) := by
  induction content with
  | nil => simp [scanQuoted]
  | cons c cs ih =>
    have hc : ¬ (c = '"') := fun hcon => h (by simp [hcon])
    have hcs : '"' ∉ cs := fun hm => h (by simp [hm])
    simp [scanQuoted, hc, ih hcs]

theorem parseCells_quotedRowChars (cells : List String) (fuel : Nat)
    (hf : cells.length ≤ fuel) (hne : cells ≠ [])
    (hq : ∀ s ∈ cells, '"' ∉ s.data) :
    parseCells fuel (quotedRowChars cells) = some cells := by
  induction cells generalizing fuel with
  | nil => exact absurd rfl hne
  | cons c rest ih =>
    cases fuel with
    | zero => simp at hf
    | succ f =>
      cases rest with
      | nil =>
        show parseCells (f + 1) ('"' :: (c.data ++ ['"'])) = some [c]
        rw [parseCells]
        rw [if_pos (by rfl)]
        simp only [List.tail_cons]
        rw [show (c.data ++ ['"'] : List Char) = c.data ++ '"' :: [] from rfl,
          scanQuoted_exact c.data [] (hq c (by simp))]
      | cons c2 rest2 =>
        show parseCells (f + 1)
            ('"' :: (c.data ++ '"' :: ',' :: quotedRowChars (c2 :: rest2))) =
          some (c :: c2 :: rest2)
        rw [parseCells]
        rw [if_pos (by rfl)]
        simp only [List.tail_cons]
        rw [scanQuoted_exact c.data (',' :: quotedRowChars (c2 :: rest2))
          (hq c (by simp))]
        show Option.map (fun cells => ({ data := c.data } : String) :: cells)
            (parseCells f (quotedRowChars (c2 :: rest2))) = some (c :: c2 :: rest2)
        rw [ih f (by simp only [List.length_cons] at hf ⊢; omega) (by simp)
          (fun s hs => hq s (by simp [hs]))]
        rfl

theorem splitOnCharAux_no_sep (sep : Char) (cs acc : List Char) (h : sep ∉ cs) :
    splitOnCharAux sep cs acc = [acc.reverse ++ cs] := by
  induction cs generalizing acc with
  | nil => simp [splitOnCharAux]
  | cons c rest ih =>
    have hc : ¬ (c = sep) := fun hcon => h (by simp [hcon])
    have hrest : sep ∉ rest := fun hm => h (by simp [hm])
    rw [splitOnCharAux, if_neg hc, ih (c :: acc) hrest]
    simp

theorem splitOnCharAux_sep (sep : Char) (pre post acc : List Char)
    (h : sep ∉ pre) :
    splitOnCharAux sep (pre ++ sep :: post) acc =
      (acc.reverse ++ pre) :: splitOnCharAux sep post [] := by
  induction pre generalizing acc with
  | nil => simp [splitOnCharAux]
  | cons c cs ih =>
    have hc : ¬ (c = sep) := fun hcon => h (by simp [hcon])
    have hcs : sep ∉ cs := fun hm => h (by simp [hm])
    rw [List.cons_append, splitOnCharAux, if_neg hc, ih (c :: acc) hcs]
    simp

theorem splitLines_join (lines : List String) (hne : lines ≠ [])
    (h : ∀ l ∈ lines, '\n' ∉ l.data) :
    splitLines (jsJoin "\n" lines) = lines.map String.data := by
  induction lines with
  | nil => exact absurd rfl hne
  | cons l rest ih =>
    cases rest with
    | nil =>
      show splitOnCharAux '\n' (jsJoin "\n" [l]).data [] = [l.data]
      have : jsJoin "\n" [l] = l := rfl
      rw [this]
      simpa using splitOnCharAux_no_sep '\n' l.data [] (h l (by simp))
    | cons l2 rest2 =>
      show splitOnCharAux '\n' ((l ++ "\n" ++ jsJoin "\n" (l2 :: rest2)) :
          String).data [] = l.data :: (l2 :: rest2).map String.data
      rw [String.data_append, String.data_append,
        show ("\n" : String).data = ['\n'] from rfl, List.append_assoc,
        List.singleton_append,
        splitOnCharAux_sep '\n' l.data _ [] (h l (by simp))]
      simp only [List.reverse_nil, List.nil_append, List.cons.injEq, true_and]
      exact ih (by simp) (fun x hx => h x (by simp [hx]))

theorem csvRowCells_no_newline (c : Component)
    (h : ∀ cell ∈ csvRowCells c, '\n' ∉ cell.data) :
    '\n' ∉ (jsJoin ","
      ((csvRowCells c).map (fun cell => "\"" ++ cell ++ "\""))).data := by
  rw [jsJoin_quoted_data]
  intro hmem
  rcases mem_quotedRowChars _ _ hmem with h1 | h1 | ⟨s, hs, hcs⟩
  · exact absurd h1 (by decide)
  · exact absurd h1 (by decide)
  · exact h s hs hcs

theorem parseCells_header :
    parseCells ((jsJoin "," csvHeaders).data.length + 1)
      (jsJoin "," csvHeaders).data = some csvHeaders := by
  decide

theorem parseCSV_exportToCSV (comps : List Component)
    (h : ∀ c ∈ comps, ∀ cell ∈ csvRowCells c, '"' ∉ cell.data ∧ '\n' ∉ cell.data) :
    parseCSV (exportToCSV comps) = some (csvHeaders :: comps.map csvRowCells) := by
  rw [parseCSV, exportToCSV]
  rw [splitLines_join _ (by simp) ?hnl]
  case hnl =>
    intro l hl
    rcases List.mem_cons.mp hl with hl | hl
    · subst hl
      decide
    · obtain ⟨c, hc, rfl⟩ := List.mem_map.mp hl
      exact csvRowCells_no_newline c (fun cell hcell => (h c hc cell hcell).2)
  rw [List.map_cons, List.mapM_cons, parseCells_header]
  have hrows : ∀ (cs : List Component),
      (∀ c ∈ cs, ∀ cell ∈ csvRowCells c, '"' ∉ cell.data ∧ '\n' ∉ cell.data) →
      (((cs.map (fun c =>
          jsJoin "," ((csvRowCells c).map (fun cell => "\"" ++ cell ++ "\"")))).map
          String.data).mapM
        (fun line => parseCells (line.length + 1) line)) =
        some (cs.map csvRowCells) := by
    intro cs
    induction cs with
    | nil => intro _; rfl
    | cons c rest ihr =>
      intro hcs
      rw [List.map_cons, List.map_cons, List.mapM_cons]
      have hrow : parseCells
          ((jsJoin "," ((csvRowCells c).map (fun cell => "\"" ++ cell ++ "\""))).data.length + 1)
          (jsJoin "," ((csvRowCells c).map (fun cell => "\"" ++ cell ++ "\""))).data =
          some (csvRowCells c) := by
        rw [jsJoin_quoted_data]
        exact parseCells_quotedRowChars (csvRowCells c) _
          (Nat.le_succ_of_le (quotedRowChars_length_ge _))
          (by simp [csvRowCells])
          (fun s hs => (hcs c (by simp) s hs).1)
      rw [hrow, ihr (fun c2 hc2 => hcs c2 (by simp [hc2]))]
      rfl
  rw [hrows comps h]
  rfl

/-- C6 (amended): provided no exported cell contains a double quote or a
newline — the export writes no escapes — parsing the CSV back yields the
header record and exactly one record per component; each record's first
cell is the component's exported part number unchanged, and its price cell
is `toFixed(2)` of the price, which parses back to the price rounded to two
decimals, within half a cent of the original. -/
theorem C6_csv_roundtrip (comps : List Component)
    (h : ∀ c ∈ comps, ∀ cell ∈ csvRowCells c, '"' ∉ cell.data ∧ '\n' ∉ cell.data) :
    parseCSV (exportToCSV comps) = some (csvHeaders :: comps.map csvRowCells) ∧
    (comps.map csvRowCells).length = comps.length ∧
    (∀ c ∈ comps,
      (csvRowCells c).get? 0 =
        some ((jsOrStr c.part_number c.partNumber).getD "") ∧
      (csvRowCells c).get? 5 =
        some (match c.price with | some q => toFixed 2 q | none => "") ∧
      ∀ p : ℚ, c.price = some p →
        parseDecimal (toFixed 2 p) = some (roundToFixed 2 p) ∧
        abs (roundToFixed 2 p - p) ≤ 1 / (2 * 10 ^ 2)) := by
  refine ⟨parseCSV_exportToCSV comps h, by simp, ?_⟩
  intro c _
  refine ⟨rfl, rfl, ?_⟩
  intro p _
  exact ⟨parseDecimal_toFixed 2 p (by omega), roundToFixed_close 2 p⟩

/-- Witness for C6 at a component whose part number contains a comma (the
quoting keeps it one cell). -/
theorem C6_csv_roundtrip_witness :
    (∀ c ∈ ([{ id := "a", partNumber := some "PN,1", manufacturer := some "ACME" }] :
        List Component),
      ∀ cell ∈ csvRowCells c, '"' ∉ cell.data ∧ '\n' ∉ cell.data) ∧
    parseCSV (exportToCSV
        [{ id := "a", partNumber := some "PN,1", manufacturer := some "ACME" }]) =
      some (csvHeaders ::
        [{ id := "a", partNumber := some "PN,1", manufacturer := some "ACME" }].map
          csvRowCells) :=
  ⟨by decide,
    (C6_csv_roundtrip
      [{ id := "a", partNumber := some "PN,1", manufacturer := some "ACME" }]
      (by decide)).1⟩

/-- C6 counterexample: a part number containing a double quote is exported
unescaped, and parsing the export back fails outright instead of
reproducing one record per component. -/
theorem C6_counterexample :
    parseCSV (exportToCSV [{ id := "x", partNumber := some "AB\"CD" }]) = none := by
  decide

theorem jsOrStr_eq_orElse (a b : Option String) (h : a ≠ some "") :
    jsOrStr a b = a.orElse (fun _ => b) := by
  cases a with
  | none => rfl
  | some v =>
    rw [jsOrStr, if_neg (fun hcon => h (by rw [hcon]))]
    rfl

theorem jsOrNum_eq_orElse (a b : Option ℚ) (h : a ≠ some 0) :
    jsOrNum a b = a.orElse (fun _ => b) := by
  cases a with
  | none => rfl
  | some v =>
    rw [jsOrNum, if_neg (fun hcon => h (by rw [hcon]))]
    rfl

theorem csvRowCells_eq_spec (c : Component) (h1 : c.spec_match ≠ some 0)
    (h2 : c.total_score ≠ some 0) (h3 : c.part_number ≠ some "") :
    csvRowCells c = csvRowCellsSpec c := by
  rw [csvRowCells, csvRowCellsSpec, jsOrStr_eq_orElse _ _ h3,
    jsOrNum_eq_orElse _ _ h1, jsOrNum_eq_orElse _ _ h2]
  have hprice : (match c.price with
      | some q => toFixed 2 q
      | none => "") = ((c.price).map (toFixed 2)).getD "" := by
    cases c.price <;> rfl
  have hspec : (match (c.spec_match).orElse (fun _ => c.specMatch) with
      | some q => toFixed 1 q
      | none => "") =
      (((c.spec_match).orElse (fun _ => c.specMatch)).map (toFixed 1)).getD "" := by
    cases (c.spec_match).orElse (fun _ => c.specMatch) <;> rfl
  have htotal : (match (c.total_score).orElse (fun _ => c.totalScore) with
      | some q => toFixed 1 q
      | none => "") =
      (((c.total_score).orElse (fun _ => c.totalScore)).map (toFixed 1)).getD "" := by
    cases (c.total_score).orElse (fun _ => c.totalScore) <;> rfl
  rw [hprice, hspec, htotal]

/-- C7 (amended): apart from the `||`-falsiness exceptions — a payload score
of exactly 0 (which falls through to the camelCase field or, failing that,
exports as the empty cell) and an empty payload part number — the export is
exactly the specified file: the literal header line
`Part Number,Manufacturer,Category,Spec Match,Total Score,Price,Stock`
followed by one double-quoted row per component with scores to one decimal
and prices to two decimals. -/
theorem C7_csv_format (comps : List Component)
    (h : ∀ c ∈ comps, c.spec_match ≠ some 0 ∧ c.total_score ≠ some 0 ∧
      c.part_number ≠ some "") :
    exportToCSV comps = csvExportSpec comps := by
  rw [exportToCSV, csvExportSpec]
  have hhead : jsJoin "," csvHeaders =
      "Part Number,Manufacturer,Category,Spec Match,Total Score,Price,Stock" := by
    decide
  rw [hhead]
  have hrows : comps.map (fun c =>
      jsJoin "," ((csvRowCells c).map (fun cell => "\"" ++ cell ++ "\""))) =
      comps.map (fun c =>
        jsJoin "," ((csvRowCellsSpec c).map (fun cell => "\"" ++ cell ++ "\""))) := by
    apply List.map_congr_left
    intro c hc
    rw [csvRowCells_eq_spec c (h c hc).1 (h c hc).2.1 (h c hc).2.2]
  rw [hrows]

/-- Witness for C7 at a component with none of the falsy exceptions. -/
theorem C7_csv_format_witness :
    (∀ c ∈ ([{ id := "a", partNumber := some "PN-7", stock := some "In Stock" }] :
        List Component), c.spec_match ≠ some 0 ∧ c.total_score ≠ some 0 ∧
        c.part_number ≠ some "") ∧
    exportToCSV [{ id := "a", partNumber := some "PN-7", stock := some "In Stock" }] =
      csvExportSpec [{ id := "a", partNumber := some "PN-7", stock := some "In Stock" }] :=
  ⟨by decide,
    C7_csv_format [{ id := "a", partNumber := some "PN-7", stock := some "In Stock" }]
      (by decide)⟩

/-- C7 counterexample: a component whose backend payload carries
`spec_match = 0` and no camelCase score exports an *empty* Spec Match cell,
not `"0.0"` — the exported file below has `""` in the Spec Match column
while the specified format prints the score to one decimal place. -/
theorem C7_counterexample :
    exportToCSV [{ id := "x", spec_match := some 0 }] =
      "Part Number,Manufacturer,Category,Spec Match,Total Score,Price,Stock\n\"\",\"\",\"\",\"\",\"\",\"\",\"\"" ∧
    (csvRowCells { id := "x", spec_match := some 0 }).get? 3 = some "" ∧
    (csvRowCellsSpec { id := "x", spec_match := some 0 }).get? 3 = some "0.0" := by
  have ht : toFixed 1 0 = "0.0" := by
    rw [toFixed, toFixedMantissa_eq 1 0 0 (by norm_num) (by norm_num)]
    decide
  refine ⟨by decide, by decide, ?_⟩
  show some ((((some (0 : ℚ)).orElse (fun _ => none)).map (toFixed 1)).getD "") =
    some "0.0"
  rw [show ((some (0 : ℚ)).orElse (fun _ => none)) = some 0 from rfl]
  simp [ht]

end COTSense
